import Mathlib

/-!
# GraspEase: vocabulary loader and token decoder of `TFLiteEngine.cpp`

A shallow embedding of `TFLiteEngine::initVocab`, `TFLiteEngine::computeMel` and
`TFLiteEngine::decodeTokens`
(`app/src/main/jni/tflite/TFLiteEngine.cpp`) and theorems about them.

Conventions of the embedding.

* A byte of the blob or of a `std::string` is a `Fin 256`; a `std::string` is the
  list of its bytes (it is counted, so it may hold NUL bytes).
* An `int` is an `Int` kept in the signed 32-bit range by `toInt32`, which is
  applied wherever the code computes a value that may leave the range
  (`n_mel * n_fft`, `token++`, `i - token_beg`).  The loop counters `i++` stay
  below their bound, which is an `int`, and need no reduction.
* A `float` is copied by `memcpy` and never computed with: it is its 32-bit pattern.
* The pointer `vocabData` is the list of the bytes from the pointer on; a read
  past the end of the blob has no defined result and is `none`.  A negative count
  handed to `resize` or to the `std::string` constructor converts to a `size_t`
  above every `max_size()`; the call throws, no status is returned, and the model
  is `none` there too.
* `std::map<int, std::string>` is the list of the assignments made to it, latest
  first; the entry of a key is the latest assignment to that key.
* The process-wide objects `filters` and `g_vocab` are passed in and returned.
-/

namespace GraspEase

/-- One `char`: an 8-bit value. -/
abbrev Byte := Fin 256

/-- A `std::string`: the counted sequence of its bytes. -/
abbrev Str := List Byte

/-- The 32-bit pattern of a `float` object. -/
abbrev FloatWord := Fin 4294967296

/-- A `std::map<int, std::string>`: the assignments made to it, latest first. -/
abbrev TokenMap := List (Int × Str)

/-- Reduction of an integer to the signed 32-bit range (two's complement). -/
def toInt32 (x : Int) : Int := (x + 2147483648) % 4294967296 - 2147483648

/-- The unsigned value of four bytes in little-endian order. -/
def le32 (b0 b1 b2 b3 : Byte) : Nat :=
  b0.val + 256 * b1.val + 65536 * b2.val + 16777216 * b3.val

/-- The bytes of a string literal of the source (all of them ASCII). -/
def lit (s : String) : Str := s.toList.map (fun c => Fin.ofNat c.toNat)

/-- The function `std::to_string(int)`: decimal digits, with a leading minus sign
for a negative value. -/
def to_string (i : Int) : Str := lit (toString i)

/-- The statements `std::memcpy(&x, vocabData, sizeof(int)); vocabData += sizeof(int);`
for an `int x`: the value read and the advanced pointer. -/
def readInt : List Byte → Option (Int × List Byte)
  | b0 :: b1 :: b2 :: b3 :: rest => some (toInt32 (le32 b0 b1 b2 b3), rest)
  | _ => none

/-- One `float` copied out of the blob. -/
def readFloat : List Byte → Option (FloatWord × List Byte)
  | b0 :: b1 :: b2 :: b3 :: rest =>
      some (⟨le32 b0 b1 b2 b3, by unfold le32; omega⟩, rest)
  | _ => none

/-- The statements `std::memcpy(filters.data.data(), vocabData, n * sizeof(float));
vocabData += n * sizeof(float);` for `n = filters.data.size()`. -/
def readFloats : Nat → List Byte → Option (List FloatWord × List Byte)
  | 0, p => some ([], p)
  | n + 1, p =>
      match readFloat p with
      | none => none
      | some (w, p1) =>
          match readFloats n p1 with
          | none => none
          | some (ws, p2) => some (w :: ws, p2)

/-- The statements `std::string word(vocabData, len); vocabData += len;`. -/
def readString (len : Int) (p : List Byte) : Option (Str × List Byte) :=
  if len < 0 then none
  else if len.toNat ≤ p.length then some (p.take len.toNat, p.drop len.toNat)
  else none

/-- The struct `whisper_filters`. -/
structure whisper_filters where
  n_mel : Int
  n_fft : Int
  data : List FloatWord

/-- The struct `whisper_vocab`, of which `g_vocab` is the one object. -/
structure whisper_vocab where
  n_vocab : Int
  id_to_token : TokenMap
  token_eot : Int
  token_sot : Int
  token_prev : Int
  token_solm : Int
  token_not : Int
  token_beg : Int

/-- The process-wide objects the engine reads and writes. -/
structure Globals where
  filters : whisper_filters
  g_vocab : whisper_vocab

/-- The assignment `m[k] = v` on a `std::map`. -/
def mapSet (m : TokenMap) (k : Int) (v : Str) : TokenMap := (k, v) :: m

/-- The entry of key `k` in a `std::map`, `none` when the key has none. -/
def mapGet : TokenMap → Int → Option Str
  | [], _ => none
  | (k, v) :: m, j => if j = k then some v else mapGet m j

/-- The first loop of `initVocab`, `for (int i = 0; i < n_vocab; i++)`, entered at
counter `i` with pointer `p`.  The first argument bounds the iterations left; the
caller passes `n_vocab` of them, which is all the loop can make. -/
def readVocab (n_vocab : Int) : Nat → Int → List Byte → TokenMap →
    Option (TokenMap × List Byte)
  | 0, _, p, m => some (m, p)
  | fuel + 1, i, p, m =>
      if i < n_vocab then
        match readInt p with
        | none => none
        | some (len, p1) =>
            match readString len p1 with
            | none => none
            | some (word, p2) => readVocab n_vocab fuel (i + 1) p2 (mapSet m i word)
      else some (m, p)

/-- The body of the second loop of `initVocab`: the label given to ID `i`. -/
def synthWord (g : whisper_vocab) (i : Int) : Str :=
  if i > g.token_beg then
    lit "[_TT_" ++ to_string (toInt32 (i - g.token_beg)) ++ lit "]"
  else if i = g.token_eot then lit "[_EOT_]"
  else if i = g.token_sot then lit "[_SOT_]"
  else if i = g.token_prev then lit "[_PREV_]"
  else if i = g.token_not then lit "[_NOT_]"
  else if i = g.token_beg then lit "[_BEG_]"
  else lit "[_extra_token_" ++ to_string i ++ lit "]"

/-- The second loop of `initVocab`, `for (int i = n_vocab; i < n_vocab_additional; i++)`,
entered at counter `i`.  The first argument bounds the iterations left; the caller
passes `n_vocab_additional - n_vocab` of them, which is all the loop can make. -/
def synthLoop (n_vocab_additional : Int) : Nat → Int → whisper_vocab → whisper_vocab
  | 0, _, g => g
  | fuel + 1, i, g =>
      if i < n_vocab_additional then
        synthLoop n_vocab_additional fuel (i + 1)
          { g with id_to_token := mapSet g.id_to_token i (synthWord g i) }
      else g

/-- The block `if (isMultilingual) { ... }` of `initVocab`. -/
def adjustSpecial (isMultilingual : Bool) (g : whisper_vocab) : whisper_vocab :=
  if isMultilingual then
    { g with
      n_vocab := 51865
      token_eot := toInt32 (g.token_eot + 1)
      token_sot := toInt32 (g.token_sot + 1)
      token_prev := toInt32 (g.token_prev + 1)
      token_solm := toInt32 (g.token_solm + 1)
      token_not := toInt32 (g.token_not + 1)
      token_beg := toInt32 (g.token_beg + 1) }
  else g

/-- The method `TFLiteEngine::initVocab`.  The two compiled-in blobs
`filters_vocab_multilingual` and `filters_vocab_en` are parameters.  The result is
the status returned together with the globals after the call. -/
def initVocab (filters_vocab_multilingual filters_vocab_en : List Byte)
    (isMultilingual : Bool) (st : Globals) : Option (Int × Globals) :=
  let vocabData :=
    if isMultilingual then filters_vocab_multilingual else filters_vocab_en
  match readInt vocabData with
  | none => none
  | some (magic, p1) =>
  if magic ≠ 0x57535052 then some (-1, st)
  else
  match readInt p1 with
  | none => none
  | some (n_mel, p2) =>
  match readInt p2 with
  | none => none
  | some (n_fft, p3) =>
  let size := toInt32 (n_mel * n_fft)
  if size < 0 then none
  else
  match readFloats size.toNat p3 with
  | none => none
  | some (data, p4) =>
  match readInt p4 with
  | none => none
  | some (n_vocab, p5) =>
  match readVocab n_vocab n_vocab.toNat 0 p5 st.g_vocab.id_to_token with
  | none => none
  | some (id_to_token, _) =>
  let n_vocab_additional : Int := if isMultilingual then 51865 else 51864
  let g := adjustSpecial isMultilingual { st.g_vocab with id_to_token := id_to_token }
  some (0, { filters := { n_mel := n_mel, n_fft := n_fft, data := data }
             g_vocab := synthLoop n_vocab_additional
               (n_vocab_additional - n_vocab).toNat n_vocab g })

/-- Modelled from the spec: `whisper_token_to_str` of `whisper.h`, which is not
among the sources.  The spec has it return the text fragment mapped to the ID by an
unchecked lookup in the vocabulary table; an ID without an entry is a miss, `none`. -/
def whisper_token_to_str (g : whisper_vocab) (token : Int) : Option Str :=
  mapGet g.id_to_token token

/-- The loop of `decodeTokens` over the tokens left, with `text` built so far. -/
def decodeLoop (g : whisper_vocab) : List Int → Str → Option Str
  | [], text => some text
  | token :: rest, text =>
      if token = g.token_eot then some text
      else if token < g.token_eot then
        match whisper_token_to_str g token with
        | none => none
        | some w => decodeLoop g rest (text ++ w)
      else decodeLoop g rest text

/-- The method `TFLiteEngine::decodeTokens`; `none` when a lookup misses. -/
def decodeTokens (g : whisper_vocab) (tokens : List Int) : Option Str :=
  decodeLoop g tokens []

/-! ## The feature extractor -/

/-- Modelled from the spec: the struct `whisper_mel` of `whisper.h`, which is not among
the sources.  The engine reads only its `data`, the flat spectrogram; the two
dimensions are those of the Whisper reference. -/
structure whisper_mel where
  n_len : Int
  n_mel : Int
  data : List FloatWord

/-- What `computeMel` takes from outside `TFLiteEngine.cpp`: the macros of `whisper.h`
(positive integer constants), the number that `std::thread::hardware_concurrency()`
reports, and the routine `log_mel_spectrogram`, taken as a function of its arguments
(the samples, their number, the four constants, the thread count, the filter bank and
the `mel` object it is handed) that gives the `mel` object it leaves. -/
structure MelEnv where
  WHISPER_SAMPLE_RATE : Nat
  WHISPER_CHUNK_SIZE : Nat
  WHISPER_N_FFT : Nat
  WHISPER_HOP_LENGTH : Nat
  WHISPER_N_MEL : Nat
  hardware_concurrency : Nat
  log_mel_spectrogram : List FloatWord → Nat → Nat → Nat → Nat → Nat → Nat →
    whisper_filters → whisper_mel → whisper_mel

/-- The call `v.resize(n, x)` on a `std::vector<float>`. -/
def resize (v : List FloatWord) (n : Nat) (x : FloatWord) : List FloatWord :=
  if n ≤ v.length then v.take n else v ++ List.replicate (n - v.length) x

/-- The fixed chunk length `WHISPER_SAMPLE_RATE * WHISPER_CHUNK_SIZE`. -/
def chunkLength (env : MelEnv) : Nat := env.WHISPER_SAMPLE_RATE * env.WHISPER_CHUNK_SIZE

/-- The buffer `computeMel` hands to `log_mel_spectrogram`: `samples` after
`samples.resize(WHISPER_SAMPLE_RATE * WHISPER_CHUNK_SIZE, 0.0f)`; the float `0.0f` has
the pattern 0. -/
def resizedSamples (env : MelEnv) (samples : List FloatWord) : List FloatWord :=
  resize samples (chunkLength env) 0

/-- The method `TFLiteEngine::computeMel`, on the process-wide `filters` and `mel`: the
vector returned and the `mel` object after the call. -/
def computeMel (env : MelEnv) (filters : whisper_filters) (mel : whisper_mel)
    (samples : List FloatWord) : List FloatWord × whisper_mel :=
  let samples := resizedSamples env samples
  let processor_count := max 2 env.hardware_concurrency
  let mel := env.log_mel_spectrogram samples samples.length env.WHISPER_SAMPLE_RATE
    env.WHISPER_N_FFT env.WHISPER_HOP_LENGTH env.WHISPER_N_MEL processor_count filters mel
  (mel.data, mel)

/-! ## The blob layout of the spec -/

/-- The byte `n mod 256`. -/
def byteOf (n : Nat) : Byte := ⟨n % 256, Nat.mod_lt n (by decide)⟩

/-- The four bytes of a 32-bit value, least significant first. -/
def encodeWord32 (u : Nat) : List Byte :=
  [byteOf u, byteOf (u / 256), byteOf (u / 65536), byteOf (u / 16777216)]

/-- A 4-byte signed integer of the layout, little-endian two's complement. -/
def encodeInt (v : Int) : List Byte := encodeWord32 (v % 4294967296).toNat

/-- A 4-byte float of the layout: its 32-bit pattern, little-endian. -/
def encodeFloat (w : FloatWord) : List Byte := encodeWord32 w.val

/-- The filter-bank matrix of the layout: the floats one after the other. -/
def encodeFloats : List FloatWord → List Byte
  | [] => []
  | w :: ws => encodeFloat w ++ encodeFloats ws

/-- One vocabulary entry of the layout: `len`, then the `len` bytes. -/
def encodeEntry (word : Str) : List Byte := encodeInt word.length ++ word

/-- The entries of the layout, one after the other. -/
def encodeEntries : List Str → List Byte
  | [] => []
  | word :: words => encodeEntry word ++ encodeEntries words

/-- The magic constant, the ASCII value of "WSPR". -/
def WSPR : Int := 0x57535052

/-- The binary layout of section 4.1 of the spec, with every field given: magic,
`n_mel`, `n_fft`, the filter data, `n_vocab`, the entries. -/
def layoutWith (magic n_mel n_fft : Int) (floats : List FloatWord) (n_vocab : Int)
    (words : List Str) : List Byte :=
  encodeInt magic ++ (encodeInt n_mel ++ (encodeInt n_fft ++ (encodeFloats floats ++
    (encodeInt n_vocab ++ encodeEntries words))))

/-- The blob of a filter bank and a vocabulary: the layout with the right magic and
with `n_vocab` the number of entries. -/
def layout (n_mel n_fft : Int) (floats : List FloatWord) (words : List Str) : List Byte :=
  layoutWith WSPR n_mel n_fft floats words.length words

/-- The table after the entries `words` are assigned to the IDs `i`, `i + 1`, ... -/
def insertWords (m : TokenMap) (i : Int) : List Str → TokenMap
  | [] => m
  | word :: words => insertWords (mapSet m i word) (i + 1) words

/-- The count `n_vocab` a blob declares: the `int` after the magic, the two
dimensions and the filter data. -/
def declaredVocab (blob : List Byte) : Option Int :=
  match readInt blob with
  | none => none
  | some (_, p1) =>
  match readInt p1 with
  | none => none
  | some (n_mel, p2) =>
  match readInt p2 with
  | none => none
  | some (n_fft, p3) =>
  match readFloats (toInt32 (n_mel * n_fft)).toNat p3 with
  | none => none
  | some (_, p4) =>
  match readInt p4 with
  | none => none
  | some (n_vocab, _) => some n_vocab

/-- The first four bytes of a blob read as an `int`. -/
def magicOf (blob : List Byte) : Option Int :=
  match readInt blob with
  | none => none
  | some (magic, _) => some magic

/-- The exclusive upper bound `n_vocab_additional` of the synthesized range. -/
def n_vocab_total (isMultilingual : Bool) : Int := if isMultilingual then 51865 else 51864

/-- The globals after a load that got past the magic check, from the fields parsed
and the table `id_to_token` left by the first loop. -/
def loaded (isMultilingual : Bool) (st : Globals) (n_mel n_fft : Int) (data : List FloatWord)
    (n_vocab : Int) (id_to_token : TokenMap) : Globals :=
  { filters := { n_mel := n_mel, n_fft := n_fft, data := data }
    g_vocab := synthLoop (n_vocab_total isMultilingual)
      (n_vocab_total isMultilingual - n_vocab).toNat n_vocab
      (adjustSpecial isMultilingual { st.g_vocab with id_to_token := id_to_token }) }

/-- The six special-token IDs, in the order end-of-text, start-of-transcript,
previous-context, solm, no-timestamp, timestamp-begin. -/
def specialIds (g : whisper_vocab) : List Int :=
  [g.token_eot, g.token_sot, g.token_prev, g.token_solm, g.token_not, g.token_beg]

/-- The concatenation, in order and with no separator, of looked-up fragments; a
fragment that is missing makes the whole result `none`. -/
def concatFragments : List (Option Str) → Option Str
  | [] => some []
  | none :: _ => none
  | some w :: rest =>
      match concatFragments rest with
      | none => none
      | some text => some (w ++ text)

/-- The tokens that the spec has rendered: those before the first end-of-text token
(all of them when there is none) with an ID strictly below the end-of-text ID. -/
def renderedTokens (g : whisper_vocab) (tokens : List Int) : List Int :=
  (tokens.takeWhile (fun t => decide (t ≠ g.token_eot))).filter
    (fun t => decide (t < g.token_eot))

/-- The reference definition of the decoder, after section 4.3 of the spec: the
concatenation of the fragments mapped to the rendered tokens. -/
def decodeTokens_spec (g : whisper_vocab) (tokens : List Int) : Option Str :=
  concatFragments ((renderedTokens g tokens).map (whisper_token_to_str g))

/-- The concatenation of two decoding results, a miss when either is one. -/
def appendResults : Option Str → Option Str → Option Str
  | some x, some y => some (x ++ y)
  | _, _ => none

/-- A run of successive calls of `initVocab`, one per flag of the list, each on the
globals the call before it left; `none` when a call does not return status 0. -/
def initVocabSeq (bm be : List Byte) : List Bool → Globals → Option Globals
  | [], st => some st
  | b :: bs, st =>
      match initVocab bm be b st with
      | some (r, st1) => if r = 0 then initVocabSeq bm be bs st1 else none
      | none => none

/-- The byte of a character of a string literal or of a rendered number. -/
def charByte (c : Char) : Byte := Fin.ofNat c.toNat

/-- The number that a list of digit bytes denotes, read on from the accumulator `a`. -/
def readDigits (a : Nat) (l : List Byte) : Nat :=
  l.foldl (fun x b => 10 * x + (b.val - 48)) a

/-- The third byte of the label given to ID `i`: `T` for a timestamp label, `E`, `S`,
`P`, `N`, `B` for the five fixed labels, `e` for a generic label. -/
def kindByte (g : whisper_vocab) (i : Int) : Byte :=
  if i > g.token_beg then 84
  else if i = g.token_eot then 69
  else if i = g.token_sot then 83
  else if i = g.token_prev then 80
  else if i = g.token_not then 78
  else if i = g.token_beg then 66
  else 101

/-- The six checks of the second loop of `initVocab` for ID `i`, in the order of the
source. -/
def labelFlags (g : whisper_vocab) (i : Int) : List Bool :=
  [decide (i > g.token_beg), decide (i = g.token_eot), decide (i = g.token_sot),
   decide (i = g.token_prev), decide (i = g.token_not), decide (i = g.token_beg)]

/-- The labels that the six checks assign, in the same order. -/
def labelTexts (g : whisper_vocab) (i : Int) : List Str :=
  [lit "[_TT_" ++ to_string (toInt32 (i - g.token_beg)) ++ lit "]", lit "[_EOT_]",
   lit "[_SOT_]", lit "[_PREV_]", lit "[_NOT_]", lit "[_BEG_]"]

/-- The six checks, each with the label it assigns. -/
def labelChecks (g : whisper_vocab) (i : Int) : List (Bool × Str) :=
  (labelFlags g i).zip (labelTexts g i)

/-- The label for an ID that no check holds for. -/
def genericLabel (i : Int) : Str := lit "[_extra_token_" ++ to_string i ++ lit "]"

/-- The seven conditions of an ID: the six checks and "none of these". -/
def labelConditions (g : whisper_vocab) (i : Int) : List Bool :=
  labelFlags g i ++ [!(labelFlags g i).any id]

/-- The label that a list of checks made in order assigns: that of the first check
that holds, and the fallback when none holds. -/
def firstMatch : List (Bool × Str) → Str → Str
  | [], fallback => fallback
  | (c, label) :: rest, fallback => if c then label else firstMatch rest fallback

/-- The outcomes of the six checks in which at most one holds. -/
def singleOutcomes : List (List Bool) :=
  [[true, false, false, false, false, false], [false, true, false, false, false, false],
   [false, false, true, false, false, false], [false, false, false, true, false, false],
   [false, false, false, false, true, false], [false, false, false, false, false, true],
   [false, false, false, false, false, false]]

/-- The order of the special-token IDs before any load: end-of-text,
start-of-transcript, previous-context and no-timestamp are four different `int`
values, all below timestamp-begin, which is below the largest `int`. -/
def BaselineIds (g : whisper_vocab) : Prop :=
  (g.token_eot ≠ g.token_sot ∧ g.token_eot ≠ g.token_prev ∧ g.token_eot ≠ g.token_not ∧
    g.token_sot ≠ g.token_prev ∧ g.token_sot ≠ g.token_not ∧ g.token_prev ≠ g.token_not) ∧
  (g.token_eot < g.token_beg ∧ g.token_sot < g.token_beg ∧ g.token_prev < g.token_beg ∧
    g.token_not < g.token_beg) ∧
  (-2147483648 ≤ g.token_eot ∧ -2147483648 ≤ g.token_sot ∧ -2147483648 ≤ g.token_prev ∧
    -2147483648 ≤ g.token_not ∧ g.token_beg < 2147483647)

/-! ## Concrete inputs -/

/-- Modelled from the spec: the object `g_vocab` before the first load.  It is defined
in `whisper.h`, which is not among the sources, and the spec speaks of its IDs only as
the monolingual baseline values; the numbers are those of the Whisper English
vocabulary.  The table is empty. -/
def g_vocab_initial : whisper_vocab :=
  { n_vocab := 51864
    id_to_token := []
    token_eot := 50256
    token_sot := 50257
    token_prev := 50360
    token_solm := 50361
    token_not := 50362
    token_beg := 50363 }

/-- The globals before the first load: `filters` is a static object, zero-initialised. -/
def initialGlobals : Globals :=
  { filters := { n_mel := 0, n_fft := 0, data := [] }
    g_vocab := g_vocab_initial }

/-- Six 32-bit patterns, those of the floats 1.0, 2.0, 3.0, 4.0, 5.0 and 6.0. -/
def scenarioFloats : List FloatWord :=
  [0x3F800000, 0x40000000, 0x40400000, 0x40800000, 0x40A00000, 0x40C00000]

/-- The blob of the scenario of section 8 of the spec: `n_mel = 2`, `n_fft = 3`, six
floats, `n_vocab = 1` and the entry "hi". -/
def scenarioBlob : List Byte := layout 2 3 scenarioFloats [lit "hi"]

/-- A blob that starts with four zero bytes. -/
def zeroBlob : List Byte := [0, 0, 0, 0]

/-- An environment for `computeMel` with the constants of the Whisper reference
(16 kHz, 30 s chunks, 400-point FFT, hop 160, 80 mel channels), four hardware threads,
and a stand-in routine that stores the samples it is given. -/
def sampleEnv : MelEnv :=
  { WHISPER_SAMPLE_RATE := 16000
    WHISPER_CHUNK_SIZE := 30
    WHISPER_N_FFT := 400
    WHISPER_HOP_LENGTH := 160
    WHISPER_N_MEL := 80
    hardware_concurrency := 4
    log_mel_spectrogram := fun samples n _ _ _ n_mel _ _ _ =>
      { n_len := n, n_mel := n_mel, data := samples } }

/-- A `mel` object with no data. -/
def emptyMel : whisper_mel := { n_len := 0, n_mel := 0, data := [] }

/-- A blob that declares a negative `n_vocab`: no filter data (`n_mel = n_fft = 0`),
the count -1, no entries. -/
def negativeCountBlob : List Byte := layoutWith WSPR 0 0 [] (-1) []

theorem toInt32_of_int32 (x : Int) (h1 : -2147483648 ≤ x) (h2 : x < 2147483648) :
    toInt32 x = x := by
  unfold toInt32; omega

theorem toInt32_range (x : Int) : -2147483648 ≤ toInt32 x ∧ toInt32 x < 2147483648 := by
  unfold toInt32; omega

theorem le32_encodeWord32 (u : Nat) (h : u < 4294967296) :
    le32 (byteOf u) (byteOf (u / 256)) (byteOf (u / 65536)) (byteOf (u / 16777216)) = u := by
  simp only [le32, byteOf]; omega

theorem readInt_encodeInt (v : Int) (rest : List Byte) :
    readInt (encodeInt v ++ rest) = some (toInt32 v, rest) := by
  have hu : (v % 4294967296).toNat < 4294967296 := by omega
  simp only [encodeInt, encodeWord32, List.cons_append, List.nil_append, readInt,
    le32_encodeWord32 _ hu]
  have h : toInt32 ((v % 4294967296).toNat : Int) = toInt32 v := by
    unfold toInt32; omega
  rw [h]

theorem readFloat_encodeFloat (w : FloatWord) (rest : List Byte) :
    readFloat (encodeFloat w ++ rest) = some (w, rest) := by
  have h := le32_encodeWord32 w.val w.isLt
  show some ((⟨le32 _ _ _ _, _⟩ : FloatWord), rest) = some (w, rest)
  exact congrArg (fun x => some (x, rest)) (Fin.ext h)

theorem readFloats_encodeFloats (ws : List FloatWord) (rest : List Byte) :
    readFloats ws.length (encodeFloats ws ++ rest) = some (ws, rest) := by
  induction ws with
  | nil => rfl
  | cons w ws ih =>
      simp only [List.length_cons, encodeFloats, List.append_assoc, readFloats,
        readFloat_encodeFloat, ih]

theorem readString_append (word : Str) (rest : List Byte) :
    readString word.length (word ++ rest) = some (word, rest) := by
  simp [readString]

/-! ## The two loops of `initVocab` -/

theorem mapGet_mapSet (m : TokenMap) (k : Int) (v : Str) (j : Int) :
    mapGet (mapSet m k v) j = if j = k then some v else mapGet m j := rfl

theorem mapGet_insertWords (words : List Str) (m : TokenMap) (i j : Int) :
    mapGet (insertWords m i words) j =
      if i ≤ j ∧ j < i + words.length then words[(j - i).toNat]? else mapGet m j := by
  induction words generalizing m i with
  | nil =>
      have h : ¬ (i ≤ j ∧ j < i + ((([] : List Str).length : Nat) : Int)) := by
        simp only [List.length_nil, Nat.cast_zero]; omega
      rw [if_neg h]; rfl
  | cons w ws ih =>
      simp only [insertWords, ih, mapGet_mapSet, List.length_cons, Nat.cast_add, Nat.cast_one]
      by_cases h1 : j = i
      · subst h1
        have ha : ¬ (j + 1 ≤ j ∧ j < j + 1 + (ws.length : Int)) := by omega
        have hb : j ≤ j ∧ j < j + ((ws.length : Int) + 1) := by omega
        rw [if_neg ha, if_pos rfl, if_pos hb]
        simp
      · by_cases h2 : i + 1 ≤ j ∧ j < i + 1 + (ws.length : Int)
        · have hb : i ≤ j ∧ j < i + ((ws.length : Int) + 1) := by omega
          have hc : (j - i).toNat = (j - (i + 1)).toNat + 1 := by omega
          rw [if_pos h2, if_pos hb, hc, List.getElem?_cons_succ]
        · have hb : ¬ (i ≤ j ∧ j < i + ((ws.length : Int) + 1)) := by omega
          rw [if_neg h2, if_neg hb, if_neg h1]

theorem readVocab_succ (n : Int) (fuel : Nat) (i : Int) (p : List Byte) (m : TokenMap) :
    readVocab n (fuel + 1) i p m =
      if i < n then
        match readInt p with
        | none => none
        | some (len, p1) =>
            match readString len p1 with
            | none => none
            | some (word, p2) => readVocab n fuel (i + 1) p2 (mapSet m i word)
      else some (m, p) := rfl

theorem readVocab_entry (n : Int) (fuel : Nat) (i : Int) (w : Str) (tail : List Byte)
    (m : TokenMap) (hi : i < n) (hlen : (w.length : Int) < 2147483648) :
    readVocab n (fuel + 1) i (encodeEntry w ++ tail) m =
      readVocab n fuel (i + 1) tail (mapSet m i w) := by
  have hw : toInt32 (w.length : Int) = (w.length : Int) :=
    toInt32_of_int32 _ (by omega) hlen
  have h1 : readInt (encodeEntry w ++ tail) = some ((w.length : Int), w ++ tail) := by
    rw [encodeEntry, List.append_assoc, readInt_encodeInt, hw]
  have h2 : readString (w.length : Int) (w ++ tail) = some (w, tail) :=
    readString_append w tail
  rw [readVocab_succ, if_pos hi, h1]
  show (match readString (w.length : Int) (w ++ tail) with
    | none => none
    | some (word, p2) => readVocab n fuel (i + 1) p2 (mapSet m i word)) = _
  rw [h2]

theorem readVocab_encodeEntries (n : Int) (words : List Str) (i : Int) (rest : List Byte)
    (m : TokenMap) (hlen : ∀ w ∈ words, (w.length : Int) < 2147483648)
    (hn : i + words.length = n) :
    readVocab n words.length i (encodeEntries words ++ rest) m =
      some (insertWords m i words, rest) := by
  induction words generalizing i m with
  | nil => rfl
  | cons w ws ih =>
      have hi : i < n := by
        simp only [List.length_cons, Nat.cast_add, Nat.cast_one] at hn; omega
      have hn2 : i + 1 + (ws.length : Int) = n := by
        simp only [List.length_cons, Nat.cast_add, Nat.cast_one] at hn; omega
      show readVocab n (ws.length + 1) i (encodeEntry w ++ encodeEntries ws ++ rest) m =
        some (insertWords (mapSet m i w) (i + 1) ws, rest)
      rw [List.append_assoc, readVocab_entry n ws.length i w _ m hi
        (hlen w (List.mem_cons_self w ws))]
      exact ih (i + 1) (mapSet m i w) (fun x hx => hlen x (List.mem_cons_of_mem w hx)) hn2

theorem synthWord_id_to_token (g : whisper_vocab) (m : TokenMap) (i : Int) :
    synthWord { g with id_to_token := m } i = synthWord g i := rfl

theorem synthLoop_fields (N : Int) (fuel : Nat) (i : Int) (g : whisper_vocab) :
    (synthLoop N fuel i g).n_vocab = g.n_vocab ∧
    (synthLoop N fuel i g).token_eot = g.token_eot ∧
    (synthLoop N fuel i g).token_sot = g.token_sot ∧
    (synthLoop N fuel i g).token_prev = g.token_prev ∧
    (synthLoop N fuel i g).token_solm = g.token_solm ∧
    (synthLoop N fuel i g).token_not = g.token_not ∧
    (synthLoop N fuel i g).token_beg = g.token_beg := by
  induction fuel generalizing i g with
  | zero => exact ⟨rfl, rfl, rfl, rfl, rfl, rfl, rfl⟩
  | succ k ih =>
      by_cases h : i < N
      · simp only [synthLoop, if_pos h]
        exact ih (i + 1) _
      · simp only [synthLoop, if_neg h, and_self]

theorem synthWord_synthLoop (N : Int) (fuel : Nat) (i : Int) (g : whisper_vocab) (j : Int) :
    synthWord (synthLoop N fuel i g) j = synthWord g j := by
  obtain ⟨_, h1, h2, h3, _, h5, h6⟩ := synthLoop_fields N fuel i g
  simp only [synthWord, h1, h2, h3, h5, h6]

theorem mapGet_synthLoop (N : Int) (fuel : Nat) (i : Int) (g : whisper_vocab) (j : Int)
    (hf : N - i ≤ fuel) :
    mapGet (synthLoop N fuel i g).id_to_token j =
      if i ≤ j ∧ j < N then some (synthWord g j) else mapGet g.id_to_token j := by
  induction fuel generalizing i g with
  | zero =>
      have h : ¬ (i ≤ j ∧ j < N) := by
        simp only [Nat.cast_zero] at hf; omega
      rw [if_neg h]; rfl
  | succ k ih =>
      by_cases h : i < N
      · have hf2 : N - (i + 1) ≤ (k : Int) := by
          simp only [Nat.cast_add, Nat.cast_one] at hf; omega
        simp only [synthLoop, if_pos h]
        rw [ih (i + 1) _ hf2, synthWord_id_to_token]
        simp only [mapGet_mapSet]
        by_cases h1 : j = i
        · subst h1
          have ha : ¬ (j + 1 ≤ j ∧ j < N) := by omega
          have hb : j ≤ j ∧ j < N := by omega
          rw [if_neg ha, if_pos hb, if_pos rfl]
        · by_cases h2 : i + 1 ≤ j ∧ j < N
          · have hb : i ≤ j ∧ j < N := by omega
            rw [if_pos h2, if_pos hb]
          · have hb : ¬ (i ≤ j ∧ j < N) := by omega
            rw [if_neg h2, if_neg hb, if_neg h1]
      · have hb : ¬ (i ≤ j ∧ j < N) := by omega
        simp only [synthLoop, if_neg h, if_neg hb]

/-! ## What a call of `initVocab` returns -/

theorem toInt32_WSPR : toInt32 WSPR = 1465077842 := by
  unfold toInt32 WSPR; omega

theorem initVocab_inv (bm be : List Byte) (b : Bool) (st : Globals) (r : Int) (st' : Globals)
    (h : initVocab bm be b st = some (r, st')) :
    (r = -1 ∧ st' = st ∧ ∃ magic, magicOf (if b then bm else be) = some magic ∧
        magic ≠ 1465077842) ∨
    (r = 0 ∧ magicOf (if b then bm else be) = some 1465077842 ∧
      ∃ n_mel n_fft data n_vocab p m1 p',
        declaredVocab (if b then bm else be) = some n_vocab ∧
        readVocab n_vocab n_vocab.toNat 0 p st.g_vocab.id_to_token = some (m1, p') ∧
        st' = loaded b st n_mel n_fft data n_vocab m1) := by
  unfold initVocab at h
  simp only at h
  split at h
  · exact absurd h (by simp)
  · rename_i magic p1 h1
    split at h
    · left
      simp only [Option.some.injEq, Prod.mk.injEq] at h
      refine ⟨h.1.symm, h.2.symm, magic, ?_, ?_⟩
      · simp only [magicOf, h1]
      · assumption
    · rename_i hm
      right
      have hm2 : magic = 1465077842 := by
        by_contra hc; exact hm hc
      subst hm2
      split at h
      · exact absurd h (by simp)
      · rename_i n_mel p2 h2
        split at h
        · exact absurd h (by simp)
        · rename_i n_fft p3 h3
          split at h
          · exact absurd h (by simp)
          · split at h
            · exact absurd h (by simp)
            · rename_i data p4 h4
              split at h
              · exact absurd h (by simp)
              · rename_i n_vocab p5 h5
                split at h
                · exact absurd h (by simp)
                · rename_i m1 p6 h6
                  simp only [Option.some.injEq, Prod.mk.injEq] at h
                  refine ⟨h.1.symm, ?_, n_mel, n_fft, data, n_vocab, p5, m1, p6, ?_, h6, ?_⟩
                  · simp only [magicOf, h1]
                  · simp only [declaredVocab, h1, h2, h3, h4, h5]
                  · rw [← h.2]; rfl

theorem initVocab_of_reads (bm be : List Byte) (b : Bool) (st : Globals)
    (p1 : List Byte) (n_mel : Int) (p2 : List Byte) (n_fft : Int) (p3 : List Byte)
    (data : List FloatWord) (p4 : List Byte) (n_vocab : Int) (p5 : List Byte)
    (m1 : TokenMap) (p6 : List Byte)
    (h1 : readInt (if b then bm else be) = some (1465077842, p1))
    (h2 : readInt p1 = some (n_mel, p2))
    (h3 : readInt p2 = some (n_fft, p3))
    (hsz : ¬ toInt32 (n_mel * n_fft) < 0)
    (h4 : readFloats (toInt32 (n_mel * n_fft)).toNat p3 = some (data, p4))
    (h5 : readInt p4 = some (n_vocab, p5))
    (h6 : readVocab n_vocab n_vocab.toNat 0 p5 st.g_vocab.id_to_token = some (m1, p6)) :
    initVocab bm be b st = some (0, loaded b st n_mel n_fft data n_vocab m1) := by
  unfold initVocab
  simp only [h1, h2, h3, h4, h5, h6, hsz, ne_eq, not_true_eq_false, if_false]
  unfold loaded n_vocab_total
  rfl

theorem initVocab_layoutWith (bm be : List Byte) (b : Bool) (st : Globals)
    (n_mel n_fft : Int) (floats : List FloatWord) (n_vocab : Int) (words : List Str)
    (rest : List Byte)
    (hsel : (if b then bm else be) =
      layoutWith WSPR n_mel n_fft floats n_vocab words ++ rest)
    (h_mel : -2147483648 ≤ n_mel ∧ n_mel < 2147483648)
    (h_fft : -2147483648 ≤ n_fft ∧ n_fft < 2147483648)
    (hsize : toInt32 (n_mel * n_fft) = (floats.length : Int))
    (h_vocab : -2147483648 ≤ n_vocab ∧ n_vocab < 2147483648)
    (hwords : words.length = n_vocab.toNat)
    (hlen : ∀ w ∈ words, (w.length : Int) < 2147483648) :
    initVocab bm be b st =
      some (0, loaded b st n_mel n_fft floats n_vocab
        (insertWords st.g_vocab.id_to_token 0 words)) := by
  have e1 : toInt32 n_mel = n_mel := toInt32_of_int32 _ h_mel.1 h_mel.2
  have e2 : toInt32 n_fft = n_fft := toInt32_of_int32 _ h_fft.1 h_fft.2
  have e3 : toInt32 n_vocab = n_vocab := toInt32_of_int32 _ h_vocab.1 h_vocab.2
  have e4 : ¬ (toInt32 (n_mel * n_fft) < 0) := by rw [hsize]; omega
  have e5 : (toInt32 (n_mel * n_fft)).toNat = floats.length := by rw [hsize]; omega
  have hv : readVocab n_vocab n_vocab.toNat 0 (encodeEntries words ++ rest)
      st.g_vocab.id_to_token = some (insertWords st.g_vocab.id_to_token 0 words, rest) := by
    by_cases hneg : n_vocab < 0
    · have h0 : n_vocab.toNat = 0 := by omega
      have hw : words = [] := List.length_eq_zero.mp (by omega)
      subst hw
      rw [h0]; rfl
    · rw [← hwords]
      exact readVocab_encodeEntries n_vocab words 0 rest _ hlen (by omega)
  have hB : (if b then bm else be) = encodeInt WSPR ++ (encodeInt n_mel ++ (encodeInt n_fft ++
      (encodeFloats floats ++ (encodeInt n_vocab ++ (encodeEntries words ++ rest))))) := by
    rw [hsel, layoutWith]
    simp only [List.append_assoc]
  have r1 := readInt_encodeInt WSPR (encodeInt n_mel ++ (encodeInt n_fft ++
      (encodeFloats floats ++ (encodeInt n_vocab ++ (encodeEntries words ++ rest)))))
  rw [← hB, toInt32_WSPR] at r1
  have r2 := readInt_encodeInt n_mel (encodeInt n_fft ++
      (encodeFloats floats ++ (encodeInt n_vocab ++ (encodeEntries words ++ rest))))
  rw [e1] at r2
  have r3 := readInt_encodeInt n_fft
      (encodeFloats floats ++ (encodeInt n_vocab ++ (encodeEntries words ++ rest)))
  rw [e2] at r3
  have r4 := readFloats_encodeFloats floats (encodeInt n_vocab ++ (encodeEntries words ++ rest))
  rw [← e5] at r4
  have r5 := readInt_encodeInt n_vocab (encodeEntries words ++ rest)
  rw [e3] at r5
  exact initVocab_of_reads bm be b st _ n_mel _ n_fft _ floats _ n_vocab _ _ rest
    r1 r2 r3 e4 r4 r5 hv

theorem adjustSpecial_id_to_token (b : Bool) (g : whisper_vocab) :
    (adjustSpecial b g).id_to_token = g.id_to_token := by
  cases b <;> rfl

theorem specialIds_synthLoop (N : Int) (fuel : Nat) (i : Int) (g : whisper_vocab) :
    specialIds (synthLoop N fuel i g) = specialIds g := by
  obtain ⟨_, h1, h2, h3, h4, h5, h6⟩ := synthLoop_fields N fuel i g
  simp only [specialIds, h1, h2, h3, h4, h5, h6]

theorem specialIds_loaded (b : Bool) (st : Globals) (n_mel n_fft : Int)
    (data : List FloatWord) (n : Int) (m1 : TokenMap) :
    specialIds (loaded b st n_mel n_fft data n m1).g_vocab =
      specialIds (adjustSpecial b st.g_vocab) := by
  unfold loaded
  rw [specialIds_synthLoop]
  cases b <;> rfl

theorem n_vocab_loaded (b : Bool) (st : Globals) (n_mel n_fft : Int)
    (data : List FloatWord) (n : Int) (m1 : TokenMap) :
    (loaded b st n_mel n_fft data n m1).g_vocab.n_vocab =
      (adjustSpecial b st.g_vocab).n_vocab := by
  unfold loaded
  rw [(synthLoop_fields _ _ _ _).1]
  cases b <;> rfl

theorem mapGet_loaded (b : Bool) (st : Globals) (n_mel n_fft : Int)
    (data : List FloatWord) (n : Int) (m1 : TokenMap) (j : Int) :
    mapGet (loaded b st n_mel n_fft data n m1).g_vocab.id_to_token j =
      if n ≤ j ∧ j < n_vocab_total b then
        some (synthWord (loaded b st n_mel n_fft data n m1).g_vocab j)
      else mapGet m1 j := by
  unfold loaded
  simp only
  rw [mapGet_synthLoop _ _ _ _ _ (by omega), synthWord_synthLoop, adjustSpecial_id_to_token]

theorem initVocab_bad_magic (bm be : List Byte) (b : Bool) (st : Globals) (magic : Int)
    (hm : magicOf (if b then bm else be) = some magic) (hne : magic ≠ 1465077842) :
    initVocab bm be b st = some (-1, st) := by
  unfold magicOf at hm
  unfold initVocab
  simp only
  split at hm
  · exact absurd hm (by simp)
  · rename_i m p h1
    simp only [Option.some.injEq] at hm
    subst hm
    simp only [h1, ne_eq, hne, not_false_eq_true, if_true]

theorem readVocab_frame (n : Int) (fuel : Nat) (i : Int) (p : List Byte) (m m1 : TokenMap)
    (p' : List Byte) (h : readVocab n fuel i p m = some (m1, p')) (j : Int)
    (hj : j < i ∨ n ≤ j) : mapGet m1 j = mapGet m j := by
  induction fuel generalizing i p m with
  | zero =>
      simp only [readVocab, Option.some.injEq, Prod.mk.injEq] at h
      rw [← h.1]
  | succ k ih =>
      unfold readVocab at h
      split at h
      · rename_i hi
        split at h
        · exact absurd h (by simp)
        · split at h
          · exact absurd h (by simp)
          · rename_i word p2 _
            have hne : j ≠ i := by omega
            rw [ih (i + 1) p2 (mapSet m i word) h (by omega), mapGet_mapSet, if_neg hne]
      · simp only [Option.some.injEq, Prod.mk.injEq] at h
        rw [← h.1]

theorem fields_loaded (b : Bool) (st : Globals) (n_mel n_fft : Int)
    (data : List FloatWord) (n : Int) (m1 : TokenMap) :
    (loaded b st n_mel n_fft data n m1).g_vocab.n_vocab = (adjustSpecial b st.g_vocab).n_vocab ∧
    (loaded b st n_mel n_fft data n m1).g_vocab.token_eot =
      (adjustSpecial b st.g_vocab).token_eot ∧
    (loaded b st n_mel n_fft data n m1).g_vocab.token_sot =
      (adjustSpecial b st.g_vocab).token_sot ∧
    (loaded b st n_mel n_fft data n m1).g_vocab.token_prev =
      (adjustSpecial b st.g_vocab).token_prev ∧
    (loaded b st n_mel n_fft data n m1).g_vocab.token_solm =
      (adjustSpecial b st.g_vocab).token_solm ∧
    (loaded b st n_mel n_fft data n m1).g_vocab.token_not =
      (adjustSpecial b st.g_vocab).token_not ∧
    (loaded b st n_mel n_fft data n m1).g_vocab.token_beg =
      (adjustSpecial b st.g_vocab).token_beg := by
  unfold loaded
  obtain ⟨h0, h1, h2, h3, h4, h5, h6⟩ := synthLoop_fields (n_vocab_total b)
    (n_vocab_total b - n).toNat n (adjustSpecial b { st.g_vocab with id_to_token := m1 })
  simp only [h0, h1, h2, h3, h4, h5, h6]
  cases b <;> exact ⟨rfl, rfl, rfl, rfl, rfl, rfl, rfl⟩

/-- The entries of the synthesized range after a successful load. -/
theorem initVocab_synthesized (bm be : List Byte) (b : Bool) (st st' : Globals) (n i : Int)
    (h : initVocab bm be b st = some (0, st'))
    (hn : declaredVocab (if b then bm else be) = some n)
    (h1 : n ≤ i) (h2 : i < n_vocab_total b) :
    mapGet st'.g_vocab.id_to_token i = some (synthWord st'.g_vocab i) := by
  rcases initVocab_inv bm be b st 0 st' h with ⟨hr, _⟩ | ⟨_, _, n_mel, n_fft, data, n', p, m1, p', hn', _, hst⟩
  · exact absurd hr (by decide)
  · rw [hn] at hn'
    have hnn : n = n' := Option.some.inj hn'
    subst hnn
    rw [hst, mapGet_loaded, if_pos ⟨h1, h2⟩]

/-- The IDs and `g_vocab.n_vocab` after a successful load. -/
theorem initVocab_fields (bm be : List Byte) (b : Bool) (st st' : Globals)
    (h : initVocab bm be b st = some (0, st')) :
    st'.g_vocab.n_vocab = (adjustSpecial b st.g_vocab).n_vocab ∧
    st'.g_vocab.token_eot = (adjustSpecial b st.g_vocab).token_eot ∧
    st'.g_vocab.token_sot = (adjustSpecial b st.g_vocab).token_sot ∧
    st'.g_vocab.token_prev = (adjustSpecial b st.g_vocab).token_prev ∧
    st'.g_vocab.token_solm = (adjustSpecial b st.g_vocab).token_solm ∧
    st'.g_vocab.token_not = (adjustSpecial b st.g_vocab).token_not ∧
    st'.g_vocab.token_beg = (adjustSpecial b st.g_vocab).token_beg := by
  rcases initVocab_inv bm be b st 0 st' h with ⟨hr, _⟩ | ⟨_, _, n_mel, n_fft, data, n', p, m1, p', _, _, hst⟩
  · exact absurd hr (by decide)
  · rw [hst]; exact fields_loaded b st n_mel n_fft data n' m1

/-- The entries a successful load leaves as they were: those at or above both the
declared count and the bound of the synthesized range. -/
theorem initVocab_above (bm be : List Byte) (b : Bool) (st st' : Globals) (n j : Int)
    (h : initVocab bm be b st = some (0, st'))
    (hn : declaredVocab (if b then bm else be) = some n)
    (h1 : n ≤ j) (h2 : n_vocab_total b ≤ j) :
    mapGet st'.g_vocab.id_to_token j = mapGet st.g_vocab.id_to_token j := by
  rcases initVocab_inv bm be b st 0 st' h with ⟨hr, _⟩ | ⟨_, _, n_mel, n_fft, data, n', p, m1, p', hn', hv, hst⟩
  · exact absurd hr (by decide)
  · rw [hn] at hn'
    have hnn : n = n' := Option.some.inj hn'
    subst hnn
    have hnot : ¬ (n ≤ j ∧ j < n_vocab_total b) := by omega
    rw [hst, mapGet_loaded, if_neg hnot]
    exact readVocab_frame n n.toNat 0 p _ m1 p' hv j (Or.inr h1)

theorem fields_loaded_false (st : Globals) (n_mel n_fft : Int)
    (data : List FloatWord) (n : Int) (m1 : TokenMap) :
    (loaded false st n_mel n_fft data n m1).g_vocab.n_vocab = st.g_vocab.n_vocab ∧
    (loaded false st n_mel n_fft data n m1).g_vocab.token_eot = st.g_vocab.token_eot ∧
    (loaded false st n_mel n_fft data n m1).g_vocab.token_sot = st.g_vocab.token_sot ∧
    (loaded false st n_mel n_fft data n m1).g_vocab.token_prev = st.g_vocab.token_prev ∧
    (loaded false st n_mel n_fft data n m1).g_vocab.token_solm = st.g_vocab.token_solm ∧
    (loaded false st n_mel n_fft data n m1).g_vocab.token_not = st.g_vocab.token_not ∧
    (loaded false st n_mel n_fft data n m1).g_vocab.token_beg = st.g_vocab.token_beg :=
  fields_loaded false st n_mel n_fft data n m1

theorem fields_loaded_true (st : Globals) (n_mel n_fft : Int)
    (data : List FloatWord) (n : Int) (m1 : TokenMap) :
    (loaded true st n_mel n_fft data n m1).g_vocab.n_vocab = 51865 ∧
    (loaded true st n_mel n_fft data n m1).g_vocab.token_eot =
      toInt32 (st.g_vocab.token_eot + 1) ∧
    (loaded true st n_mel n_fft data n m1).g_vocab.token_sot =
      toInt32 (st.g_vocab.token_sot + 1) ∧
    (loaded true st n_mel n_fft data n m1).g_vocab.token_prev =
      toInt32 (st.g_vocab.token_prev + 1) ∧
    (loaded true st n_mel n_fft data n m1).g_vocab.token_solm =
      toInt32 (st.g_vocab.token_solm + 1) ∧
    (loaded true st n_mel n_fft data n m1).g_vocab.token_not =
      toInt32 (st.g_vocab.token_not + 1) ∧
    (loaded true st n_mel n_fft data n m1).g_vocab.token_beg =
      toInt32 (st.g_vocab.token_beg + 1) :=
  fields_loaded true st n_mel n_fft data n m1

theorem synthWord_timestamp (g : whisper_vocab) (i : Int) (h : g.token_beg < i) :
    synthWord g i = lit "[_TT_" ++ to_string (toInt32 (i - g.token_beg)) ++ lit "]" := by
  have hgt : i > g.token_beg := h
  unfold synthWord
  rw [if_pos hgt]

theorem synthWord_eot (g : whisper_vocab) (i : Int) (h0 : i ≤ g.token_beg)
    (h1 : i = g.token_eot) : synthWord g i = lit "[_EOT_]" := by
  have hle : ¬ (i > g.token_beg) := by omega
  unfold synthWord
  rw [if_neg hle, if_pos h1]

theorem synthWord_sot (g : whisper_vocab) (i : Int) (h0 : i ≤ g.token_beg)
    (h1 : i ≠ g.token_eot) (h2 : i = g.token_sot) : synthWord g i = lit "[_SOT_]" := by
  have hle : ¬ (i > g.token_beg) := by omega
  unfold synthWord
  rw [if_neg hle, if_neg h1, if_pos h2]

theorem synthWord_prev (g : whisper_vocab) (i : Int) (h0 : i ≤ g.token_beg)
    (h1 : i ≠ g.token_eot) (h2 : i ≠ g.token_sot) (h3 : i = g.token_prev) :
    synthWord g i = lit "[_PREV_]" := by
  have hle : ¬ (i > g.token_beg) := by omega
  unfold synthWord
  rw [if_neg hle, if_neg h1, if_neg h2, if_pos h3]

theorem synthWord_not (g : whisper_vocab) (i : Int) (h0 : i ≤ g.token_beg)
    (h1 : i ≠ g.token_eot) (h2 : i ≠ g.token_sot) (h3 : i ≠ g.token_prev)
    (h4 : i = g.token_not) : synthWord g i = lit "[_NOT_]" := by
  have hle : ¬ (i > g.token_beg) := by omega
  unfold synthWord
  rw [if_neg hle, if_neg h1, if_neg h2, if_neg h3, if_pos h4]

theorem synthWord_beg (g : whisper_vocab) (i : Int)
    (h1 : i ≠ g.token_eot) (h2 : i ≠ g.token_sot) (h3 : i ≠ g.token_prev)
    (h4 : i ≠ g.token_not) (h5 : i = g.token_beg) : synthWord g i = lit "[_BEG_]" := by
  have hle : ¬ (i > g.token_beg) := by omega
  unfold synthWord
  rw [if_neg hle, if_neg h1, if_neg h2, if_neg h3, if_neg h4, if_pos h5]

theorem synthWord_extra (g : whisper_vocab) (i : Int) (h0 : i ≤ g.token_beg)
    (h1 : i ≠ g.token_eot) (h2 : i ≠ g.token_sot) (h3 : i ≠ g.token_prev)
    (h4 : i ≠ g.token_not) (h5 : i ≠ g.token_beg) :
    synthWord g i = lit "[_extra_token_" ++ to_string i ++ lit "]" := by
  have hle : ¬ (i > g.token_beg) := by omega
  unfold synthWord
  rw [if_neg hle, if_neg h1, if_neg h2, if_neg h3, if_neg h4, if_neg h5]

theorem declaredVocab_of_reads (blob : List Byte) (magic : Int)
    (p1 : List Byte) (n_mel : Int) (p2 : List Byte) (n_fft : Int) (p3 : List Byte)
    (data : List FloatWord) (p4 : List Byte) (n_vocab : Int) (p5 : List Byte)
    (h1 : readInt blob = some (magic, p1))
    (h2 : readInt p1 = some (n_mel, p2))
    (h3 : readInt p2 = some (n_fft, p3))
    (h4 : readFloats (toInt32 (n_mel * n_fft)).toNat p3 = some (data, p4))
    (h5 : readInt p4 = some (n_vocab, p5)) :
    declaredVocab blob = some n_vocab := by
  unfold declaredVocab
  simp only [h1, h2, h3, h4, h5]

theorem declaredVocab_layoutWith (magic n_mel n_fft : Int) (floats : List FloatWord)
    (n_vocab : Int) (words : List Str) (rest : List Byte)
    (h_mel : -2147483648 ≤ n_mel ∧ n_mel < 2147483648)
    (h_fft : -2147483648 ≤ n_fft ∧ n_fft < 2147483648)
    (hsize : toInt32 (n_mel * n_fft) = (floats.length : Int))
    (h_vocab : -2147483648 ≤ n_vocab ∧ n_vocab < 2147483648) :
    declaredVocab (layoutWith magic n_mel n_fft floats n_vocab words ++ rest) =
      some n_vocab := by
  have e1 : toInt32 n_mel = n_mel := toInt32_of_int32 _ h_mel.1 h_mel.2
  have e2 : toInt32 n_fft = n_fft := toInt32_of_int32 _ h_fft.1 h_fft.2
  have e3 : toInt32 n_vocab = n_vocab := toInt32_of_int32 _ h_vocab.1 h_vocab.2
  have e5 : (toInt32 (n_mel * n_fft)).toNat = floats.length := by rw [hsize]; omega
  have hB : layoutWith magic n_mel n_fft floats n_vocab words ++ rest =
      encodeInt magic ++ (encodeInt n_mel ++ (encodeInt n_fft ++
      (encodeFloats floats ++ (encodeInt n_vocab ++ (encodeEntries words ++ rest))))) := by
    rw [layoutWith]
    simp only [List.append_assoc]
  have r1 := readInt_encodeInt magic (encodeInt n_mel ++ (encodeInt n_fft ++
      (encodeFloats floats ++ (encodeInt n_vocab ++ (encodeEntries words ++ rest)))))
  rw [← hB] at r1
  have r2 := readInt_encodeInt n_mel (encodeInt n_fft ++
      (encodeFloats floats ++ (encodeInt n_vocab ++ (encodeEntries words ++ rest))))
  rw [e1] at r2
  have r3 := readInt_encodeInt n_fft
      (encodeFloats floats ++ (encodeInt n_vocab ++ (encodeEntries words ++ rest)))
  rw [e2] at r3
  have r4 := readFloats_encodeFloats floats (encodeInt n_vocab ++ (encodeEntries words ++ rest))
  rw [← e5] at r4
  have r5 := readInt_encodeInt n_vocab (encodeEntries words ++ rest)
  rw [e3] at r5
  exact declaredVocab_of_reads _ _ _ n_mel _ n_fft _ floats _ n_vocab _ r1 r2 r3 r4 r5

theorem declaredVocab_scenarioBlob : declaredVocab scenarioBlob = some 1 := by
  have h := declaredVocab_layoutWith WSPR 2 3 scenarioFloats 1 [lit "hi"] []
    (by decide) (by decide) (by decide) (by decide)
  rw [List.append_nil] at h
  exact h

theorem initVocab_scenarioBlob (other : List Byte) (b : Bool) (st : Globals) :
    initVocab (if b then scenarioBlob else other) (if b then other else scenarioBlob) b st =
      some (0, loaded b st 2 3 scenarioFloats 1 (insertWords st.g_vocab.id_to_token 0 [lit "hi"])) :=
  initVocab_layoutWith _ _ b st 2 3 scenarioFloats 1 [lit "hi"] []
    (by cases b <;> exact (List.append_nil _).symm) (by decide) (by decide)
    (by decide) (by decide) (by decide) (by decide)

theorem initVocab_scenarioBlob_both (b : Bool) (st : Globals) :
    initVocab scenarioBlob scenarioBlob b st =
      some (0, loaded b st 2 3 scenarioFloats 1 (insertWords st.g_vocab.id_to_token 0 [lit "hi"])) :=
  initVocab_layoutWith scenarioBlob scenarioBlob b st 2 3 scenarioFloats 1 [lit "hi"] []
    (by cases b <;> exact (List.append_nil _).symm) (by decide) (by decide)
    (by decide) (by decide) (by decide) (by decide)

/-! ## Every blob that loads is a layout -/

theorem encodeWord32_le32 (b0 b1 b2 b3 : Byte) :
    encodeWord32 (le32 b0 b1 b2 b3) = [b0, b1, b2, b3] := by
  have h0 := b0.isLt
  have h1 := b1.isLt
  have h2 := b2.isLt
  have h3 := b3.isLt
  have e0 : byteOf (le32 b0 b1 b2 b3) = b0 := Fin.ext (by simp only [byteOf, le32]; omega)
  have e1 : byteOf (le32 b0 b1 b2 b3 / 256) = b1 :=
    Fin.ext (by simp only [byteOf, le32]; omega)
  have e2 : byteOf (le32 b0 b1 b2 b3 / 65536) = b2 :=
    Fin.ext (by simp only [byteOf, le32]; omega)
  have e3 : byteOf (le32 b0 b1 b2 b3 / 16777216) = b3 :=
    Fin.ext (by simp only [byteOf, le32]; omega)
  rw [encodeWord32, e0, e1, e2, e3]

theorem le32_lt (b0 b1 b2 b3 : Byte) : le32 b0 b1 b2 b3 < 4294967296 := by
  have h0 := b0.isLt
  have h1 := b1.isLt
  have h2 := b2.isLt
  have h3 := b3.isLt
  unfold le32; omega

theorem readInt_cons4 (b0 b1 b2 b3 : Byte) (rest : List Byte) :
    readInt (b0 :: b1 :: b2 :: b3 :: rest) = some (toInt32 (le32 b0 b1 b2 b3), rest) := rfl

theorem readInt_inv (p : List Byte) (v : Int) (p1 : List Byte)
    (h : readInt p = some (v, p1)) :
    p = encodeInt v ++ p1 ∧ -2147483648 ≤ v ∧ v < 2147483648 := by
  rcases p with _ | ⟨b0, _ | ⟨b1, _ | ⟨b2, _ | ⟨b3, rest⟩⟩⟩⟩
  · exact absurd h (by simp [readInt])
  · exact absurd h (by simp [readInt])
  · exact absurd h (by simp [readInt])
  · exact absurd h (by simp [readInt])
  · rw [readInt_cons4] at h
    have hv : toInt32 (le32 b0 b1 b2 b3) = v := (Prod.mk.inj (Option.some.inj h)).1
    have hr : rest = p1 := (Prod.mk.inj (Option.some.inj h)).2
    have hlt := le32_lt b0 b1 b2 b3
    have hu : (v % 4294967296).toNat = le32 b0 b1 b2 b3 := by
      rw [← hv]; unfold toInt32; omega
    refine ⟨?_, ?_, ?_⟩
    · rw [encodeInt, hu, encodeWord32_le32, ← hr]; rfl
    · rw [← hv]; exact (toInt32_range _).1
    · rw [← hv]; exact (toInt32_range _).2

theorem readFloat_cons4 (b0 b1 b2 b3 : Byte) (rest : List Byte) :
    readFloat (b0 :: b1 :: b2 :: b3 :: rest) =
      some (⟨le32 b0 b1 b2 b3, le32_lt b0 b1 b2 b3⟩, rest) := rfl

theorem readFloat_inv (p : List Byte) (w : FloatWord) (p1 : List Byte)
    (h : readFloat p = some (w, p1)) : p = encodeFloat w ++ p1 := by
  rcases p with _ | ⟨b0, _ | ⟨b1, _ | ⟨b2, _ | ⟨b3, rest⟩⟩⟩⟩
  · exact absurd h (by simp [readFloat])
  · exact absurd h (by simp [readFloat])
  · exact absurd h (by simp [readFloat])
  · exact absurd h (by simp [readFloat])
  · rw [readFloat_cons4] at h
    have hw : (⟨le32 b0 b1 b2 b3, le32_lt b0 b1 b2 b3⟩ : FloatWord) = w :=
      (Prod.mk.inj (Option.some.inj h)).1
    have hr : rest = p1 := (Prod.mk.inj (Option.some.inj h)).2
    have hval : w.val = le32 b0 b1 b2 b3 := by rw [← hw]
    rw [encodeFloat, hval, encodeWord32_le32, ← hr]; rfl

theorem readFloats_inv (n : Nat) (p : List Byte) (ws : List FloatWord) (p' : List Byte)
    (h : readFloats n p = some (ws, p')) : p = encodeFloats ws ++ p' ∧ ws.length = n := by
  induction n generalizing p ws with
  | zero =>
      have h1 : (([] : List FloatWord), p) = (ws, p') := Option.some.inj h
      have hw : [] = ws := (Prod.mk.inj h1).1
      have hp : p = p' := (Prod.mk.inj h1).2
      rw [← hw, hp]; exact ⟨rfl, rfl⟩
  | succ k ih =>
      rw [readFloats] at h
      split at h
      · exact absurd h (by simp)
      · rename_i w p1 hf
        split at h
        · exact absurd h (by simp)
        · rename_i ws1 p2 hfs
          have h1 : (w :: ws1, p2) = (ws, p') := Option.some.inj h
          have hw : w :: ws1 = ws := (Prod.mk.inj h1).1
          have hp : p2 = p' := (Prod.mk.inj h1).2
          rw [hp] at hfs
          obtain ⟨e1, e2⟩ := ih p1 ws1 hfs
          have e0 := readFloat_inv p w p1 hf
          rw [← hw, e0, e1]
          exact ⟨by rw [encodeFloats, List.append_assoc], by rw [List.length_cons, e2]⟩

theorem readString_inv (len : Int) (p : List Byte) (w : Str) (p' : List Byte)
    (h : readString len p = some (w, p')) :
    0 ≤ len ∧ (w.length : Int) = len ∧ p = w ++ p' := by
  unfold readString at h
  split at h
  · exact absurd h (by simp)
  · rename_i hneg
    split at h
    · rename_i hle
      have h1 : (p.take len.toNat, p.drop len.toNat) = (w, p') := Option.some.inj h
      have hw : p.take len.toNat = w := (Prod.mk.inj h1).1
      have hp : p.drop len.toNat = p' := (Prod.mk.inj h1).2
      refine ⟨by omega, ?_, ?_⟩
      · rw [← hw, List.length_take]; omega
      · rw [← hw, ← hp, List.take_append_drop]
    · exact absurd h (by simp)

theorem readVocab_inv (n : Int) (fuel : Nat) (i : Int) (p : List Byte) (m m1 : TokenMap)
    (p' : List Byte) (h : readVocab n fuel i p m = some (m1, p')) (hf : n - i ≤ fuel) :
    ∃ words : List Str, p = encodeEntries words ++ p' ∧ m1 = insertWords m i words ∧
      words.length = (n - i).toNat ∧ ∀ w ∈ words, (w.length : Int) < 2147483648 := by
  induction fuel generalizing i p m with
  | zero =>
      have h1 : (m, p) = (m1, p') := Option.some.inj h
      have hm : m = m1 := (Prod.mk.inj h1).1
      have hp : p = p' := (Prod.mk.inj h1).2
      refine ⟨[], by rw [hp]; rfl, by rw [← hm]; rfl, ?_, fun w hw => absurd hw (List.not_mem_nil w)⟩
      simp only [Nat.cast_zero] at hf
      have : (n - i).toNat = 0 := by omega
      rw [this]; rfl
  | succ k ih =>
      rw [readVocab_succ] at h
      split at h
      · rename_i hi
        split at h
        · exact absurd h (by simp)
        · rename_i len p1 hlen
          split at h
          · exact absurd h (by simp)
          · rename_i word p2 hword
            have hf2 : n - (i + 1) ≤ (k : Int) := by
              simp only [Nat.cast_add, Nat.cast_one] at hf; omega
            obtain ⟨words, e1, e2, e3, e4⟩ := ih (i + 1) p2 (mapSet m i word) h hf2
            obtain ⟨a1, a2, a3⟩ := readInt_inv p len p1 hlen
            obtain ⟨c1, c2, c3⟩ := readString_inv len p1 word p2 hword
            refine ⟨word :: words, ?_, ?_, ?_, ?_⟩
            · rw [a1, c3, e1, encodeEntries, encodeEntry, c2, List.append_assoc,
                List.append_assoc]
            · rw [e2]; rfl
            · rw [List.length_cons, e3]; omega
            · intro w hw
              rcases List.mem_cons.mp hw with hc | hc
              · rw [hc, c2]; exact a3
              · exact e4 w hc
      · rename_i hi
        have h1 : (m, p) = (m1, p') := Option.some.inj h
        have hm : m = m1 := (Prod.mk.inj h1).1
        have hp : p = p' := (Prod.mk.inj h1).2
        refine ⟨[], by rw [hp]; rfl, by rw [← hm]; rfl, ?_,
          fun w hw => absurd hw (List.not_mem_nil w)⟩
        have : (n - i).toNat = 0 := by omega
        rw [this]; rfl

theorem initVocab_reads (bm be : List Byte) (b : Bool) (st st' : Globals)
    (h : initVocab bm be b st = some (0, st')) :
    ∃ p1 n_mel p2 n_fft p3 data p4 n_vocab p5 m1 p6,
      readInt (if b then bm else be) = some (1465077842, p1) ∧
      readInt p1 = some (n_mel, p2) ∧
      readInt p2 = some (n_fft, p3) ∧
      ¬ toInt32 (n_mel * n_fft) < 0 ∧
      readFloats (toInt32 (n_mel * n_fft)).toNat p3 = some (data, p4) ∧
      readInt p4 = some (n_vocab, p5) ∧
      readVocab n_vocab n_vocab.toNat 0 p5 st.g_vocab.id_to_token = some (m1, p6) ∧
      st' = loaded b st n_mel n_fft data n_vocab m1 := by
  unfold initVocab at h
  simp only at h
  split at h
  · exact absurd h (by simp)
  · rename_i magic p1 h1
    split at h
    · have hr : (-1 : Int) = 0 := (Prod.mk.inj (Option.some.inj h)).1
      exact absurd hr (by decide)
    · rename_i hm
      have hm2 : magic = 1465077842 := by
        by_contra hc; exact hm hc
      subst hm2
      split at h
      · exact absurd h (by simp)
      · rename_i n_mel p2 h2
        split at h
        · exact absurd h (by simp)
        · rename_i n_fft p3 h3
          split at h
          · exact absurd h (by simp)
          · rename_i hsz
            split at h
            · exact absurd h (by simp)
            · rename_i data p4 h4
              split at h
              · exact absurd h (by simp)
              · rename_i n_vocab p5 h5
                split at h
                · exact absurd h (by simp)
                · rename_i m1 p6 h6
                  simp only [Option.some.injEq, Prod.mk.injEq] at h
                  refine ⟨p1, n_mel, p2, n_fft, p3, data, p4, n_vocab, p5, m1, p6, h1, h2, h3,
                    hsz, h4, h5, h6, ?_⟩
                  rw [← h.2]; rfl

theorem initVocab_success_layout (bm be : List Byte) (b : Bool) (st st' : Globals)
    (h : initVocab bm be b st = some (0, st')) :
    ∃ n_mel n_fft floats n_vocab words rest,
      (if b then bm else be) = layoutWith WSPR n_mel n_fft floats n_vocab words ++ rest ∧
      (-2147483648 ≤ n_mel ∧ n_mel < 2147483648) ∧
      (-2147483648 ≤ n_fft ∧ n_fft < 2147483648) ∧
      toInt32 (n_mel * n_fft) = (floats.length : Int) ∧
      (-2147483648 ≤ n_vocab ∧ n_vocab < 2147483648) ∧
      words.length = n_vocab.toNat ∧
      (∀ w ∈ words, (w.length : Int) < 2147483648) ∧
      declaredVocab (if b then bm else be) = some n_vocab ∧
      st' = loaded b st n_mel n_fft floats n_vocab
        (insertWords st.g_vocab.id_to_token 0 words) := by
  obtain ⟨p1, n_mel, p2, n_fft, p3, data, p4, n_vocab, p5, m1, p6, h1, h2, h3, hsz, h4, h5,
    h6, hst⟩ := initVocab_reads bm be b st st' h
  obtain ⟨a1, _, _⟩ := readInt_inv _ _ _ h1
  obtain ⟨a2, r2a, r2b⟩ := readInt_inv _ _ _ h2
  obtain ⟨a3, r3a, r3b⟩ := readInt_inv _ _ _ h3
  obtain ⟨a4, l4⟩ := readFloats_inv _ _ _ _ h4
  obtain ⟨a5, r5a, r5b⟩ := readInt_inv _ _ _ h5
  obtain ⟨words, a6, e6, l6, w6⟩ := readVocab_inv n_vocab n_vocab.toNat 0 p5 _ m1 p6 h6
    (by omega)
  have hW : encodeInt 1465077842 = encodeInt WSPR := rfl
  refine ⟨n_mel, n_fft, data, n_vocab, words, p6, ?_, ⟨r2a, r2b⟩, ⟨r3a, r3b⟩, ?_, ⟨r5a, r5b⟩,
    ?_, w6, declaredVocab_of_reads _ _ _ _ _ _ _ _ _ _ _ h1 h2 h3 h4 h5, ?_⟩
  · rw [a1, a2, a3, a4, a5, a6, hW, layoutWith]
    simp only [List.append_assoc]
  · omega
  · rw [l6, Int.sub_zero]
  · rw [hst, e6]

/-! ## The table after a load -/

theorem mapGet_append_of_not_mem (W m : TokenMap) (j : Int) (h : j ∉ W.map Prod.fst) :
    mapGet (W ++ m) j = mapGet m j := by
  induction W with
  | nil => rfl
  | cons kv W ih =>
      obtain ⟨k, v⟩ := kv
      have hne : j ≠ k := fun hc => h (by rw [hc]; exact List.mem_cons_self _ _)
      have hrest : j ∉ W.map Prod.fst := fun hc => h (List.mem_cons_of_mem _ hc)
      show (if j = k then some v else mapGet (W ++ m) j) = mapGet m j
      rw [if_neg hne, ih hrest]

theorem mapGet_append_isSome (W m : TokenMap) (j : Int) (h : (mapGet m j).isSome) :
    (mapGet (W ++ m) j).isSome := by
  induction W with
  | nil => exact h
  | cons kv W ih =>
      obtain ⟨k, v⟩ := kv
      show (if j = k then some v else mapGet (W ++ m) j).isSome
      by_cases hc : j = k
      · rw [if_pos hc]; rfl
      · rw [if_neg hc]; exact ih

theorem insertWords_writes (words : List Str) (m : TokenMap) (i : Int) :
    ∃ W : TokenMap, insertWords m i words = W ++ m ∧
      ∀ j, j ∈ W.map Prod.fst ↔ (i ≤ j ∧ j < i + words.length) := by
  induction words generalizing m i with
  | nil =>
      refine ⟨[], rfl, fun j => ⟨fun hc => absurd hc (List.not_mem_nil j), fun hc => ?_⟩⟩
      simp only [List.length_nil, Nat.cast_zero] at hc
      omega
  | cons w ws ih =>
      obtain ⟨W, hW, hk⟩ := ih (mapSet m i w) (i + 1)
      refine ⟨W ++ [(i, w)], ?_, fun j => ?_⟩
      · rw [insertWords, hW, mapSet, List.append_assoc]; rfl
      · rw [List.map_append, List.mem_append, hk j]
        simp only [List.map_cons, List.map_nil, List.mem_singleton, List.length_cons,
          Nat.cast_add, Nat.cast_one]
        omega

theorem synthLoop_writes (N : Int) (fuel : Nat) (i : Int) (g : whisper_vocab)
    (hf : N - i ≤ fuel) :
    ∃ W : TokenMap, (synthLoop N fuel i g).id_to_token = W ++ g.id_to_token ∧
      ∀ j, j ∈ W.map Prod.fst ↔ (i ≤ j ∧ j < N) := by
  induction fuel generalizing i g with
  | zero =>
      refine ⟨[], rfl, fun j => ⟨fun hc => absurd hc (List.not_mem_nil j), fun hc => ?_⟩⟩
      simp only [Nat.cast_zero] at hf
      omega
  | succ k ih =>
      by_cases h : i < N
      · have hf2 : N - (i + 1) ≤ (k : Int) := by
          simp only [Nat.cast_add, Nat.cast_one] at hf; omega
        obtain ⟨W, hW, hk⟩ := ih (i + 1)
          { g with id_to_token := mapSet g.id_to_token i (synthWord g i) } hf2
        refine ⟨W ++ [(i, synthWord g i)], ?_, fun j => ?_⟩
        · simp only [synthLoop, if_pos h]
          rw [hW, mapSet, List.append_assoc]; rfl
        · rw [List.map_append, List.mem_append, hk j]
          simp only [List.map_cons, List.map_nil, List.mem_singleton]
          omega
      · refine ⟨[], ?_, fun j => ⟨fun hc => absurd hc (List.not_mem_nil j), fun hc => ?_⟩⟩
        · simp only [synthLoop, if_neg h]; rfl
        · omega

theorem loaded_writes (b : Bool) (st : Globals) (n_mel n_fft : Int) (data : List FloatWord)
    (n : Int) (words : List Str) (hw : words.length = n.toNat) :
    ∃ W : TokenMap,
      (loaded b st n_mel n_fft data n
        (insertWords st.g_vocab.id_to_token 0 words)).g_vocab.id_to_token =
        W ++ st.g_vocab.id_to_token ∧
      ∀ j, j ∈ W.map Prod.fst ↔ (min 0 n ≤ j ∧ j < max n (n_vocab_total b)) := by
  obtain ⟨W1, h1, k1⟩ := insertWords_writes words st.g_vocab.id_to_token 0
  obtain ⟨W2, h2, k2⟩ := synthLoop_writes (n_vocab_total b) (n_vocab_total b - n).toNat n
    (adjustSpecial b { st.g_vocab with id_to_token := insertWords st.g_vocab.id_to_token 0 words })
    (by omega)
  have hN : (0 : Int) < n_vocab_total b := by cases b <;> decide
  refine ⟨W2 ++ W1, ?_, fun j => ?_⟩
  · unfold loaded
    simp only
    rw [h2, adjustSpecial_id_to_token]
    show W2 ++ insertWords st.g_vocab.id_to_token 0 words = W2 ++ W1 ++ st.g_vocab.id_to_token
    rw [h1, List.append_assoc]
  · rw [List.map_append, List.mem_append, k1 j, k2 j, hw]
    omega

theorem mapGet_loaded_layout (b : Bool) (st : Globals) (n_mel n_fft : Int)
    (data : List FloatWord) (n : Int) (words : List Str) (j : Int) :
    mapGet (loaded b st n_mel n_fft data n
        (insertWords st.g_vocab.id_to_token 0 words)).g_vocab.id_to_token j =
      if n ≤ j ∧ j < n_vocab_total b then
        some (synthWord (loaded b st n_mel n_fft data n
          (insertWords st.g_vocab.id_to_token 0 words)).g_vocab j)
      else if 0 ≤ j ∧ j < 0 + (words.length : Int) then words[(j - 0).toNat]?
      else mapGet st.g_vocab.id_to_token j := by
  rw [mapGet_loaded, mapGet_insertWords]

theorem concatFragments_of_all_some (l : List (Option Str)) (h : ∀ o ∈ l, o.isSome) :
    (concatFragments l).isSome := by
  induction l with
  | nil => rfl
  | cons o rest ih =>
      have ho := h o (List.mem_cons_self o rest)
      have hrest := ih (fun x hx => h x (List.mem_cons_of_mem o hx))
      cases o with
      | none => exact absurd ho (by simp)
      | some w =>
          cases hc : concatFragments rest with
          | none => rw [hc] at hrest; exact absurd hrest (by simp)
          | some text => simp [concatFragments, hc]

/-! ## Successive loads -/

theorem specialIds_after_true (bm be : List Byte) (st st' : Globals)
    (h : initVocab bm be true st = some (0, st')) :
    specialIds st'.g_vocab = (specialIds st.g_vocab).map (fun x => toInt32 (x + 1)) ∧
    st'.g_vocab.n_vocab = 51865 := by
  obtain ⟨h0, h1, h2, h3, h4, h5, h6⟩ := initVocab_fields bm be true st st' h
  refine ⟨?_, h0⟩
  simp only [specialIds, h1, h2, h3, h4, h5, h6, List.map_cons, List.map_nil]
  rfl

theorem specialIds_after_false (bm be : List Byte) (st st' : Globals)
    (h : initVocab bm be false st = some (0, st')) :
    specialIds st'.g_vocab = specialIds st.g_vocab ∧
    st'.g_vocab.n_vocab = st.g_vocab.n_vocab := by
  obtain ⟨h0, h1, h2, h3, h4, h5, h6⟩ := initVocab_fields bm be false st st' h
  refine ⟨?_, h0⟩
  simp only [specialIds, h1, h2, h3, h4, h5, h6]
  rfl

theorem map_toInt32_succ (l : List Int)
    (hl : ∀ x ∈ l, -2147483648 ≤ x ∧ x < 2147483647) :
    l.map (fun x => toInt32 (x + 1)) = l.map (fun x => x + 1) := by
  apply List.map_congr_left
  intro x hx
  exact toInt32_of_int32 _ (by have := hl x hx; omega) (by have := hl x hx; omega)

theorem initVocabSeq_cons (bm be : List Byte) (b : Bool) (bs : List Bool) (st st1 : Globals)
    (h : initVocab bm be b st = some (0, st1)) :
    initVocabSeq bm be (b :: bs) st = initVocabSeq bm be bs st1 := by
  rw [initVocabSeq, h]
  rfl

theorem initVocabSeq_cons_inv (bm be : List Byte) (b : Bool) (bs : List Bool)
    (st st' : Globals) (h : initVocabSeq bm be (b :: bs) st = some st') :
    ∃ st1, initVocab bm be b st = some (0, st1) ∧ initVocabSeq bm be bs st1 = some st' := by
  rw [initVocabSeq] at h
  split at h
  · rename_i r st1 hcall
    split at h
    · rename_i hr
      rw [hr] at hcall
      exact ⟨st1, hcall, h⟩
    · exact absurd h (by simp)
  · exact absurd h (by simp)

theorem specialIds_initVocabSeq (bm be : List Byte) (flags : List Bool) (st st' : Globals)
    (h : initVocabSeq bm be flags st = some st')
    (hids : ∀ x ∈ specialIds st.g_vocab,
      -2147483648 ≤ x ∧ x + (flags.count true : Int) < 2147483648) :
    specialIds st'.g_vocab =
      (specialIds st.g_vocab).map (fun x => x + (flags.count true : Int)) := by
  induction flags generalizing st with
  | nil =>
      have hst : st = st' := Option.some.inj h
      rw [← hst]
      simp
  | cons b bs ih =>
      obtain ⟨st1, hcall, hrest⟩ := initVocabSeq_cons_inv bm be b bs st st' h
      cases b with
      | false =>
          have hc : (false :: bs).count true = bs.count true := by simp
          rw [hc] at hids ⊢
          have h1 := (specialIds_after_false bm be st st1 hcall).1
          rw [← h1] at hids ⊢
          exact ih st1 hrest hids
      | true =>
          have hc : (true :: bs).count true = bs.count true + 1 := by simp
          rw [hc] at hids ⊢
          have h1 := (specialIds_after_true bm be st st1 hcall).1
          rw [map_toInt32_succ _ (fun x hx => by
            have := hids x hx
            simp only [Nat.cast_add, Nat.cast_one] at this
            omega)] at h1
          have hids1 : ∀ y ∈ specialIds st1.g_vocab,
              -2147483648 ≤ y ∧ y + (bs.count true : Int) < 2147483648 := by
            intro y hy
            rw [h1] at hy
            obtain ⟨x, hx, hxy⟩ := List.mem_map.mp hy
            have := hids x hx
            simp only [Nat.cast_add, Nat.cast_one] at this
            omega
          rw [ih st1 hrest hids1, h1, List.map_map]
          apply List.map_congr_left
          intro x _
          simp only [Function.comp_apply, Nat.cast_add, Nat.cast_one]
          omega

/-! ## Decimal rendering and the shape of the labels -/

theorem to_string_ofNat (m : Nat) :
    to_string (Int.ofNat m) = (Nat.toDigits 10 m).map charByte := rfl

theorem to_string_negSucc (m : Nat) :
    to_string (Int.negSucc m) = 45 :: (Nat.toDigits 10 (m + 1)).map charByte := rfl

theorem charByte_digitChar (k : Nat) (h : k < 10) :
    (charByte (Nat.digitChar k)).val = 48 + k := by
  interval_cases k <;> rfl

theorem readDigits_toDigitsCore (fuel n : Nat) (ds : List Char) (h : n < fuel) :
    readDigits 0 ((Nat.toDigitsCore 10 fuel n ds).map charByte) =
      readDigits n (ds.map charByte) := by
  induction fuel generalizing n ds with
  | zero => omega
  | succ k ih =>
      have hd : (charByte (Nat.digitChar (n % 10))).val = 48 + n % 10 :=
        charByte_digitChar _ (Nat.mod_lt n (by decide))
      unfold Nat.toDigitsCore
      simp only
      by_cases h0 : n / 10 = 0
      · rw [if_pos h0]
        simp only [List.map_cons, readDigits, List.foldl_cons, hd]
        congr 1
        omega
      · rw [if_neg h0, ih (n / 10) _ (by omega)]
        simp only [List.map_cons, readDigits, List.foldl_cons, hd]
        congr 1
        omega

theorem readDigits_toDigits (n : Nat) :
    readDigits 0 ((Nat.toDigits 10 n).map charByte) = n :=
  readDigits_toDigitsCore (n + 1) n [] (by omega)

theorem toDigitsCore_bytes (fuel n : Nat) (ds : List Char) :
    ∀ c ∈ Nat.toDigitsCore 10 fuel n ds, c ∈ ds ∨ 48 ≤ (charByte c).val := by
  induction fuel generalizing n ds with
  | zero => intro c hc; exact Or.inl hc
  | succ k ih =>
      have hd : (charByte (Nat.digitChar (n % 10))).val = 48 + n % 10 :=
        charByte_digitChar _ (Nat.mod_lt n (by decide))
      intro c hc
      unfold Nat.toDigitsCore at hc
      simp only at hc
      by_cases h0 : n / 10 = 0
      · rw [if_pos h0] at hc
        rcases List.mem_cons.mp hc with h1 | h1
        · right; rw [h1, hd]; omega
        · exact Or.inl h1
      · rw [if_neg h0] at hc
        rcases ih (n / 10) _ c hc with h1 | h1
        · rcases List.mem_cons.mp h1 with h2 | h2
          · right; rw [h2, hd]; omega
          · exact Or.inl h2
        · exact Or.inr h1

theorem toDigits_bytes (n : Nat) :
    ∀ b ∈ (Nat.toDigits 10 n).map charByte, 48 ≤ b.val := by
  intro b hb
  obtain ⟨c, hc, hcb⟩ := List.mem_map.mp hb
  rcases toDigitsCore_bytes (n + 1) n [] c hc with h1 | h1
  · exact absurd h1 (List.not_mem_nil c)
  · rw [← hcb]; exact h1

theorem to_string_injective (i j : Int) (h : to_string i = to_string j) : i = j := by
  cases i with
  | ofNat m =>
      cases j with
      | ofNat k =>
          rw [to_string_ofNat, to_string_ofNat] at h
          have := congrArg (readDigits 0) h
          rw [readDigits_toDigits, readDigits_toDigits] at this
          rw [this]
      | negSucc k =>
          rw [to_string_ofNat, to_string_negSucc] at h
          have hm := toDigits_bytes m 45 (by rw [h]; exact List.mem_cons_self _ _)
          exact absurd hm (by decide)
  | negSucc m =>
      cases j with
      | ofNat k =>
          rw [to_string_ofNat, to_string_negSucc] at h
          have hm := toDigits_bytes k 45 (by rw [← h]; exact List.mem_cons_self _ _)
          exact absurd hm (by decide)
      | negSucc k =>
          rw [to_string_negSucc, to_string_negSucc] at h
          have h2 := List.tail_eq_of_cons_eq h
          have := congrArg (readDigits 0) h2
          rw [readDigits_toDigits, readDigits_toDigits] at this
          have hk : m = k := by omega
          rw [hk]

theorem synthWord_third (g : whisper_vocab) (i : Int) :
    (synthWord g i)[2]? = some (kindByte g i) := by
  unfold synthWord kindByte
  split_ifs <;> rfl

theorem kindByte_cases (g : whisper_vocab) (i j : Int) (h : kindByte g i = kindByte g j) :
    (g.token_beg < i ∧ g.token_beg < j) ∨ i = j ∨
    ((i ≤ g.token_beg ∧ i ≠ g.token_eot ∧ i ≠ g.token_sot ∧ i ≠ g.token_prev ∧
        i ≠ g.token_not ∧ i ≠ g.token_beg) ∧
      (j ≤ g.token_beg ∧ j ≠ g.token_eot ∧ j ≠ g.token_sot ∧ j ≠ g.token_prev ∧
        j ≠ g.token_not ∧ j ≠ g.token_beg)) := by
  unfold kindByte at h
  split_ifs at h <;> first | exact absurd h (by decide) | omega

theorem synthWord_injective (g : whisper_vocab) (i j : Int)
    (hi : -2147483648 ≤ i ∧ i < 2147483648) (hj : -2147483648 ≤ j ∧ j < 2147483648)
    (h : synthWord g i = synthWord g j) : i = j := by
  have hk : kindByte g i = kindByte g j := by
    have h3 := congrArg (fun s : Str => s[2]?) h
    simp only [synthWord_third] at h3
    exact Option.some.inj h3
  rcases kindByte_cases g i j hk with ⟨a, b⟩ | hij | ⟨⟨a0, a1, a2, a3, a4, a5⟩, b0, b1, b2, b3, b4, b5⟩
  · rw [synthWord_timestamp g i a, synthWord_timestamp g j b] at h
    have h1 := List.append_cancel_left (List.append_cancel_right h)
    have h2 := to_string_injective _ _ h1
    unfold toInt32 at h2
    omega
  · exact hij
  · rw [synthWord_extra g i a0 a1 a2 a3 a4 a5, synthWord_extra g j b0 b1 b2 b3 b4 b5] at h
    exact to_string_injective _ _ (List.append_cancel_left (List.append_cancel_right h))

/-! ## The order of the checks -/

theorem labelFlags_single (g : whisper_vocab) (i : Int)
    (hd : g.token_eot ≠ g.token_sot ∧ g.token_eot ≠ g.token_prev ∧ g.token_eot ≠ g.token_not ∧
      g.token_sot ≠ g.token_prev ∧ g.token_sot ≠ g.token_not ∧ g.token_prev ≠ g.token_not)
    (hb : g.token_eot < g.token_beg ∧ g.token_sot < g.token_beg ∧ g.token_prev < g.token_beg ∧
      g.token_not < g.token_beg) :
    labelFlags g i ∈ singleOutcomes := by
  obtain ⟨d1, d2, d3, d4, d5, d6⟩ := hd
  obtain ⟨b1, b2, b3, b4⟩ := hb
  by_cases h1 : i > g.token_beg
  · have e : labelFlags g i = [true, false, false, false, false, false] := by
      unfold labelFlags
      rw [decide_eq_true h1, decide_eq_false (show ¬ i = g.token_eot by omega),
        decide_eq_false (show ¬ i = g.token_sot by omega),
        decide_eq_false (show ¬ i = g.token_prev by omega),
        decide_eq_false (show ¬ i = g.token_not by omega),
        decide_eq_false (show ¬ i = g.token_beg by omega)]
    rw [e]; decide
  · by_cases h2 : i = g.token_eot
    · have e : labelFlags g i = [false, true, false, false, false, false] := by
        unfold labelFlags
        rw [decide_eq_false h1, decide_eq_true h2,
          decide_eq_false (show ¬ i = g.token_sot by omega),
          decide_eq_false (show ¬ i = g.token_prev by omega),
          decide_eq_false (show ¬ i = g.token_not by omega),
          decide_eq_false (show ¬ i = g.token_beg by omega)]
      rw [e]; decide
    · by_cases h3 : i = g.token_sot
      · have e : labelFlags g i = [false, false, true, false, false, false] := by
          unfold labelFlags
          rw [decide_eq_false h1, decide_eq_false h2, decide_eq_true h3,
            decide_eq_false (show ¬ i = g.token_prev by omega),
            decide_eq_false (show ¬ i = g.token_not by omega),
            decide_eq_false (show ¬ i = g.token_beg by omega)]
        rw [e]; decide
      · by_cases h4 : i = g.token_prev
        · have e : labelFlags g i = [false, false, false, true, false, false] := by
            unfold labelFlags
            rw [decide_eq_false h1, decide_eq_false h2, decide_eq_false h3, decide_eq_true h4,
              decide_eq_false (show ¬ i = g.token_not by omega),
              decide_eq_false (show ¬ i = g.token_beg by omega)]
          rw [e]; decide
        · by_cases h5 : i = g.token_not
          · have e : labelFlags g i = [false, false, false, false, true, false] := by
              unfold labelFlags
              rw [decide_eq_false h1, decide_eq_false h2, decide_eq_false h3,
                decide_eq_false h4, decide_eq_true h5,
                decide_eq_false (show ¬ i = g.token_beg by omega)]
            rw [e]; decide
          · by_cases h6 : i = g.token_beg
            · have e : labelFlags g i = [false, false, false, false, false, true] := by
                unfold labelFlags
                rw [decide_eq_false h1, decide_eq_false h2, decide_eq_false h3,
                  decide_eq_false h4, decide_eq_false h5, decide_eq_true h6]
              rw [e]; decide
            · have e : labelFlags g i = [false, false, false, false, false, false] := by
                unfold labelFlags
                rw [decide_eq_false h1, decide_eq_false h2, decide_eq_false h3,
                  decide_eq_false h4, decide_eq_false h5, decide_eq_false h6]
              rw [e]; decide

theorem singleOutcomes_conditions :
    ∀ f ∈ singleOutcomes, (f ++ [!f.any id]).count true = 1 := by decide

theorem singleOutcomes_count : ∀ f ∈ singleOutcomes, f.count true ≤ 1 := by decide

theorem filter_zip_length (f : List Bool) (t : List Str) :
    ((f.zip t).filter (fun x => x.1)).length ≤ f.count true := by
  induction f generalizing t with
  | nil => simp
  | cons c f ih =>
      cases t with
      | nil => simp
      | cons x t =>
          cases c with
          | false =>
              simp only [List.zip_cons_cons, Bool.false_eq_true, not_false_eq_true,
                List.filter_cons_of_neg]
              have := ih t
              simp only [List.count_cons, beq_iff_eq, Bool.false_eq_true, if_false,
                Nat.add_zero]
              exact this
          | true =>
              simp only [List.zip_cons_cons, List.filter_cons_of_pos, List.length_cons]
              have := ih t
              simp only [List.count_cons, beq_self_eq_true, if_true]
              omega

theorem firstMatch_filter (l : List (Bool × Str)) (d : Str) :
    firstMatch l d = firstMatch (l.filter (fun x => x.1)) d := by
  induction l with
  | nil => rfl
  | cons x l ih =>
      obtain ⟨c, label⟩ := x
      cases c with
      | false =>
          rw [List.filter_cons_of_neg (by simp)]
          simp only [firstMatch, Bool.false_eq_true, if_false]
          exact ih
      | true =>
          rw [List.filter_cons_of_pos (by simp)]
          simp only [firstMatch, if_true]

theorem firstMatch_perm (l l0 : List (Bool × Str)) (d : Str) (hp : l.Perm l0)
    (h1 : (l0.filter (fun x => x.1)).length ≤ 1) : firstMatch l d = firstMatch l0 d := by
  have hf : (l.filter (fun x => x.1)).Perm (l0.filter (fun x => x.1)) := hp.filter _
  rw [firstMatch_filter l d, firstMatch_filter l0 d]
  cases hl : l0.filter (fun x => x.1) with
  | nil =>
      rw [hl] at hf
      rw [hf.eq_nil]
  | cons x rest =>
      cases rest with
      | nil =>
          rw [hl] at hf
          rw [List.perm_singleton.mp hf]
      | cons y rest2 =>
          rw [hl] at h1
          simp only [List.length_cons] at h1
          omega

theorem synthWord_firstMatch (g : whisper_vocab) (i : Int) :
    synthWord g i = firstMatch (labelChecks g i) (genericLabel i) := by
  simp only [synthWord, labelChecks, labelFlags, labelTexts, genericLabel, List.zip_cons_cons,
    List.zip_nil_right, firstMatch, decide_eq_true_eq]

theorem loaded_ids_separate (bm be : List Byte) (b : Bool) (st st' : Globals)
    (h : initVocab bm be b st = some (0, st')) (hbase : BaselineIds st.g_vocab) :
    (st'.g_vocab.token_eot ≠ st'.g_vocab.token_sot ∧
      st'.g_vocab.token_eot ≠ st'.g_vocab.token_prev ∧
      st'.g_vocab.token_eot ≠ st'.g_vocab.token_not ∧
      st'.g_vocab.token_sot ≠ st'.g_vocab.token_prev ∧
      st'.g_vocab.token_sot ≠ st'.g_vocab.token_not ∧
      st'.g_vocab.token_prev ≠ st'.g_vocab.token_not) ∧
    (st'.g_vocab.token_eot < st'.g_vocab.token_beg ∧
      st'.g_vocab.token_sot < st'.g_vocab.token_beg ∧
      st'.g_vocab.token_prev < st'.g_vocab.token_beg ∧
      st'.g_vocab.token_not < st'.g_vocab.token_beg) := by
  obtain ⟨⟨d1, d2, d3, d4, d5, d6⟩, ⟨b1, b2, b3, b4⟩, r1, r2, r3, r4, r5⟩ := hbase
  obtain ⟨_, h1, h2, h3, _, h5, h6⟩ := initVocab_fields bm be b st st' h
  cases b with
  | false =>
      have a1 : st'.g_vocab.token_eot = st.g_vocab.token_eot := h1
      have a2 : st'.g_vocab.token_sot = st.g_vocab.token_sot := h2
      have a3 : st'.g_vocab.token_prev = st.g_vocab.token_prev := h3
      have a5 : st'.g_vocab.token_not = st.g_vocab.token_not := h5
      have a6 : st'.g_vocab.token_beg = st.g_vocab.token_beg := h6
      rw [a1, a2, a3, a5, a6]
      exact ⟨⟨d1, d2, d3, d4, d5, d6⟩, b1, b2, b3, b4⟩
  | true =>
      have a1 : st'.g_vocab.token_eot = st.g_vocab.token_eot + 1 :=
        h1.trans (toInt32_of_int32 _ (by omega) (by omega))
      have a2 : st'.g_vocab.token_sot = st.g_vocab.token_sot + 1 :=
        h2.trans (toInt32_of_int32 _ (by omega) (by omega))
      have a3 : st'.g_vocab.token_prev = st.g_vocab.token_prev + 1 :=
        h3.trans (toInt32_of_int32 _ (by omega) (by omega))
      have a5 : st'.g_vocab.token_not = st.g_vocab.token_not + 1 :=
        h5.trans (toInt32_of_int32 _ (by omega) (by omega))
      have a6 : st'.g_vocab.token_beg = st.g_vocab.token_beg + 1 :=
        h6.trans (toInt32_of_int32 _ (by omega) (by omega))
      rw [a1, a2, a3, a5, a6]
      refine ⟨⟨?_, ?_, ?_, ?_, ?_, ?_⟩, ?_, ?_, ?_, ?_⟩ <;> omega

theorem baselineIds_initial : BaselineIds initialGlobals.g_vocab := by
  unfold BaselineIds
  decide

/-! ## Loads that return no status -/

theorem renderedTokens_nil (g : whisper_vocab) : renderedTokens g [] = [] := rfl

theorem renderedTokens_eot (g : whisper_vocab) (t : Int) (ts : List Int)
    (h : t = g.token_eot) : renderedTokens g (t :: ts) = [] := by
  simp [renderedTokens, List.takeWhile, h]

theorem renderedTokens_below (g : whisper_vocab) (t : Int) (ts : List Int)
    (h : t < g.token_eot) : renderedTokens g (t :: ts) = t :: renderedTokens g ts := by
  have hne : t ≠ g.token_eot := by omega
  simp [renderedTokens, List.takeWhile, hne, h]

theorem renderedTokens_above (g : whisper_vocab) (t : Int) (ts : List Int)
    (h1 : t ≠ g.token_eot) (h2 : ¬ t < g.token_eot) :
    renderedTokens g (t :: ts) = renderedTokens g ts := by
  simp [renderedTokens, List.takeWhile, h1, h2]

theorem decodeLoop_spec (g : whisper_vocab) (tokens : List Int) (text : Str) :
    decodeLoop g tokens text =
      match concatFragments ((renderedTokens g tokens).map (whisper_token_to_str g)) with
      | none => none
      | some frs => some (text ++ frs) := by
  induction tokens generalizing text with
  | nil => simp [decodeLoop, renderedTokens_nil, concatFragments]
  | cons t ts ih =>
      by_cases h1 : t = g.token_eot
      · simp [decodeLoop, h1, renderedTokens_eot, concatFragments]
      · by_cases h2 : t < g.token_eot
        · rw [renderedTokens_below g t ts h2]
          cases hw : whisper_token_to_str g t with
          | none => simp [decodeLoop, h1, h2, hw, concatFragments]
          | some w =>
              simp only [decodeLoop, if_neg h1, if_pos h2, hw, ih, List.map_cons,
                concatFragments]
              cases concatFragments ((renderedTokens g ts).map (whisper_token_to_str g)) with
              | none => rfl
              | some frs => simp [List.append_assoc]
        · rw [renderedTokens_above g t ts h1 h2]
          simp only [decodeLoop, if_neg h1, if_neg h2, ih]

theorem decodeLoop_take (g : whisper_vocab) (k : Nat) (tokens : List Int) (text : Str)
    (h : tokens[k]? = some g.token_eot) :
    decodeLoop g tokens text = decodeLoop g (tokens.take k) text := by
  induction k generalizing tokens text with
  | zero =>
      cases tokens with
      | nil => simp at h
      | cons t ts =>
          simp only [List.getElem?_cons_zero, Option.some.injEq] at h
          simp [decodeLoop, h]
  | succ k ih =>
      cases tokens with
      | nil => simp at h
      | cons t ts =>
          simp only [List.getElem?_cons_succ] at h
          simp only [List.take_succ_cons, decodeLoop]
          split
          · rfl
          · split
            · split
              · rfl
              · exact ih ts _ h
            · exact ih ts _ h

theorem decodeTokens_rendered (g : whisper_vocab) (tokens : List Int) :
    decodeTokens g tokens =
      concatFragments ((renderedTokens g tokens).map (whisper_token_to_str g)) := by
  unfold decodeTokens
  rw [decodeLoop_spec]
  cases concatFragments ((renderedTokens g tokens).map (whisper_token_to_str g)) with
  | none => rfl
  | some frs => rfl

theorem renderedTokens_lt (g : whisper_vocab) (tokens : List Int) :
    ∀ t ∈ renderedTokens g tokens, t < g.token_eot := by
  intro t ht
  unfold renderedTokens at ht
  have h := (List.mem_filter.mp ht).2
  exact of_decide_eq_true h

theorem renderedTokens_mem (g : whisper_vocab) (tokens : List Int) :
    ∀ t ∈ renderedTokens g tokens, t ∈ tokens := by
  intro t ht
  unfold renderedTokens at ht
  exact (List.takeWhile_sublist _).subset (List.mem_filter.mp ht).1

theorem renderedTokens_filter_le (g : whisper_vocab) (tokens : List Int) :
    renderedTokens g (tokens.filter (fun t => decide (t ≤ g.token_eot))) =
      renderedTokens g tokens := by
  induction tokens with
  | nil => rfl
  | cons t ts ih =>
      by_cases h1 : t = g.token_eot
      · have hle : t ≤ g.token_eot := by omega
        rw [List.filter_cons_of_pos (by simpa using hle), renderedTokens_eot g t _ h1,
          renderedTokens_eot g t _ h1]
      · by_cases h2 : t < g.token_eot
        · have hle : t ≤ g.token_eot := by omega
          rw [List.filter_cons_of_pos (by simpa using hle), renderedTokens_below g t _ h2,
            renderedTokens_below g t _ h2, ih]
        · have hle : ¬ t ≤ g.token_eot := by omega
          rw [List.filter_cons_of_neg (by simpa using hle), renderedTokens_above g t _ h1 h2, ih]

theorem renderedTokens_append_of_not_mem (g : whisper_vocab) (a b : List Int)
    (h : g.token_eot ∉ a) :
    renderedTokens g (a ++ b) = renderedTokens g a ++ renderedTokens g b := by
  induction a with
  | nil => rfl
  | cons t ts ih =>
      have h1 : t ≠ g.token_eot := fun hc => h (hc ▸ List.mem_cons_self t ts)
      have hts : g.token_eot ∉ ts := fun hc => h (List.mem_cons_of_mem t hc)
      by_cases h2 : t < g.token_eot
      · rw [List.cons_append, renderedTokens_below g t _ h2, renderedTokens_below g t _ h2,
          ih hts, List.cons_append]
      · rw [List.cons_append, renderedTokens_above g t _ h1 h2,
          renderedTokens_above g t _ h1 h2, ih hts]

theorem renderedTokens_append_of_mem (g : whisper_vocab) (a b : List Int)
    (h : g.token_eot ∈ a) : renderedTokens g (a ++ b) = renderedTokens g a := by
  induction a with
  | nil => exact absurd h (List.not_mem_nil _)
  | cons t ts ih =>
      by_cases h1 : t = g.token_eot
      · rw [List.cons_append, renderedTokens_eot g t _ h1, renderedTokens_eot g t _ h1]
      · have hts : g.token_eot ∈ ts := by
          rcases List.mem_cons.mp h with hc | hc
          · exact absurd hc.symm h1
          · exact hc
        by_cases h2 : t < g.token_eot
        · rw [List.cons_append, renderedTokens_below g t _ h2, renderedTokens_below g t _ h2,
            ih hts]
        · rw [List.cons_append, renderedTokens_above g t _ h1 h2,
            renderedTokens_above g t _ h1 h2, ih hts]

theorem concatFragments_append (l1 l2 : List (Option Str)) :
    concatFragments (l1 ++ l2) = appendResults (concatFragments l1) (concatFragments l2) := by
  induction l1 with
  | nil =>
      cases h : concatFragments l2 with
      | none => simp [concatFragments, appendResults, h]
      | some y => simp [concatFragments, appendResults, h]
  | cons o rest ih =>
      cases o with
      | none => simp [concatFragments, appendResults]
      | some w =>
          show (match concatFragments (rest ++ l2) with
            | none => none
            | some text => some (w ++ text)) =
            appendResults (match concatFragments rest with
              | none => none
              | some text => some (w ++ text)) (concatFragments l2)
          rw [ih]
          cases concatFragments rest with
          | none => rfl
          | some x =>
              cases concatFragments l2 with
              | none => rfl
              | some y => simp [appendResults, List.append_assoc]

/-! ## The claims -/

/-- C1. Format round trip: for `n_mel ≥ 0` and `n_fft ≥ 0` that are 4-byte signed
integers with a product below `2^31`, every list of `n_mel * n_fft` float words and
every list of byte strings (their number and their lengths 4-byte signed integers),
`initVocab` on the blob laid out as magic, `n_mel`, `n_fft`, the float words, `n_vocab`
and the `(len, bytes)` entries returns 0 and leaves `filters.n_mel = n_mel`,
`filters.n_fft = n_fft`, `filters.data` equal to the float words in order, of length
`n_mel * n_fft`, and `id_to_token[i]` equal to the `i`-th byte string for every `i`
below `n_vocab`.  This holds in either mode and from every prior state. -/
theorem initVocab_layout_roundtrip (bm be : List Byte) (b : Bool) (st : Globals)
    (n_mel n_fft : Int) (floats : List FloatWord) (words : List Str)
    (hsel : (if b then bm else be) = layout n_mel n_fft floats words)
    (h_mel : 0 ≤ n_mel ∧ n_mel < 2147483648) (h_fft : 0 ≤ n_fft ∧ n_fft < 2147483648)
    (hprod : n_mel * n_fft < 2147483648)
    (hfloats : (floats.length : Int) = n_mel * n_fft)
    (hcount : (words.length : Int) < 2147483648)
    (hlen : ∀ w ∈ words, (w.length : Int) < 2147483648) :
    ∃ st', initVocab bm be b st = some (0, st') ∧
      st'.filters.n_mel = n_mel ∧ st'.filters.n_fft = n_fft ∧
      st'.filters.data = floats ∧ (st'.filters.data.length : Int) = n_mel * n_fft ∧
      ∀ (i : Nat) (hi : i < words.length),
        mapGet st'.g_vocab.id_to_token (i : Int) = some (words.get ⟨i, hi⟩) := by
  have hsize : toInt32 (n_mel * n_fft) = (floats.length : Int) := by
    rw [hfloats]; exact toInt32_of_int32 _ (by omega) hprod
  have hsel2 : (if b then bm else be) =
      layoutWith WSPR n_mel n_fft floats (words.length : Int) words ++ [] := by
    rw [List.append_nil]; exact hsel
  refine ⟨_, initVocab_layoutWith bm be b st n_mel n_fft floats words.length words [] hsel2
    ⟨by omega, h_mel.2⟩ ⟨by omega, h_fft.2⟩ hsize ⟨by omega, hcount⟩ (by omega) hlen,
    rfl, rfl, rfl, hfloats, ?_⟩
  intro i hi
  have hnot : ¬ ((words.length : Int) ≤ (i : Int) ∧ (i : Int) < n_vocab_total b) := by omega
  have hin : (0 : Int) ≤ (i : Int) ∧ (i : Int) < 0 + (words.length : Int) := by omega
  rw [mapGet_loaded, if_neg hnot, mapGet_insertWords, if_pos hin]
  have hidx : ((i : Int) - 0).toNat = i := by omega
  rw [hidx, List.getElem?_eq_getElem hi]
  rfl

/-- Witness for C1: on the scenario blob (`n_mel = 2`, `n_fft = 3`, six floats, the one entry "hi"),
loaded in monolingual mode from the initial state. -/
theorem initVocab_layout_roundtrip_witness :
    ∃ st', initVocab scenarioBlob scenarioBlob false initialGlobals = some (0, st') ∧
      st'.filters.n_mel = 2 ∧ st'.filters.n_fft = 3 ∧
      st'.filters.data = scenarioFloats ∧ (st'.filters.data.length : Int) = 2 * 3 ∧
      ∀ (i : Nat) (hi : i < [lit "hi"].length),
        mapGet st'.g_vocab.id_to_token (i : Int) = some ([lit "hi"].get ⟨i, hi⟩) :=
  initVocab_layout_roundtrip scenarioBlob scenarioBlob false initialGlobals 2 3
    scenarioFloats [lit "hi"] rfl (by decide) (by decide) (by decide) (by decide)
    (by decide) (by decide)

/-- C3. Atomic load-or-fail: from every prior state and in either mode, when the first
four bytes of the blob are not the magic, `initVocab` returns the negative status -1
and the globals after the call are the globals before it: `filters` (`n_mel`, `n_fft`,
`data`), the table `id_to_token`, `g_vocab.n_vocab` and the six special-token IDs. -/
theorem initVocab_bad_magic_atomic (bm be : List Byte) (b : Bool) (st : Globals)
    (magic : Int) (hm : magicOf (if b then bm else be) = some magic)
    (hne : magic ≠ 1465077842) :
    ∃ st', initVocab bm be b st = some (-1, st') ∧ st' = st ∧
      st'.filters.n_mel = st.filters.n_mel ∧ st'.filters.n_fft = st.filters.n_fft ∧
      st'.filters.data = st.filters.data ∧
      st'.g_vocab.id_to_token = st.g_vocab.id_to_token ∧
      st'.g_vocab.n_vocab = st.g_vocab.n_vocab ∧
      specialIds st'.g_vocab = specialIds st.g_vocab :=
  ⟨st, initVocab_bad_magic bm be b st magic hm hne, rfl, rfl, rfl, rfl, rfl, rfl, rfl⟩

/-- Witness for C3: on the blob of four zero bytes, in multilingual mode from the initial state. -/
theorem initVocab_bad_magic_atomic_witness :
    ∃ st', initVocab zeroBlob zeroBlob true initialGlobals = some (-1, st') ∧
      st' = initialGlobals ∧
      st'.filters.n_mel = initialGlobals.filters.n_mel ∧
      st'.filters.n_fft = initialGlobals.filters.n_fft ∧
      st'.filters.data = initialGlobals.filters.data ∧
      st'.g_vocab.id_to_token = initialGlobals.g_vocab.id_to_token ∧
      st'.g_vocab.n_vocab = initialGlobals.g_vocab.n_vocab ∧
      specialIds st'.g_vocab = specialIds initialGlobals.g_vocab :=
  initVocab_bad_magic_atomic zeroBlob zeroBlob true initialGlobals 0 rfl (by decide)

/-- C4. The decoder equals its reference definition: for every token sequence and
every table, `decodeTokens` returns the concatenation, in order and with no separator,
of the fragments mapped to exactly those tokens that come before the first end-of-text
token (all of the sequence when there is none) and have an ID strictly below the
end-of-text ID; a missing fragment is a miss on both sides. -/
theorem decodeTokens_eq_spec (g : whisper_vocab) (tokens : List Int) :
    decodeTokens g tokens = decodeTokens_spec g tokens := by
  unfold decodeTokens decodeTokens_spec
  rw [decodeLoop_spec]
  cases concatFragments ((renderedTokens g tokens).map (whisper_token_to_str g)) with
  | none => rfl
  | some frs => rfl

/-- C5. Two token sequences that both hold the end-of-text token at position `k` and
agree on the positions below `k` decode to the same string, which is the decoding of
the first `k` tokens alone: what follows position `k` is ignored. -/
theorem decodeTokens_before_eot (g : whisper_vocab) (t1 t2 : List Int) (k : Nat)
    (h1 : t1[k]? = some g.token_eot) (h2 : t2[k]? = some g.token_eot)
    (hpre : t1.take k = t2.take k) :
    decodeTokens g t1 = decodeTokens g t2 ∧
    decodeTokens g t1 = decodeTokens g (t1.take k) := by
  unfold decodeTokens
  rw [decodeLoop_take g k t1 [] h1, decodeLoop_take g k t2 [] h2, hpre]
  exact ⟨rfl, rfl⟩

/-- Witness for C5: on the sequences `[0, 50256, 7]` and `[0, 50256, 0, 0]` with the end-of-text
token 50256 at position 1. -/
theorem decodeTokens_before_eot_witness :
    decodeTokens g_vocab_initial [0, 50256, 7] = decodeTokens g_vocab_initial [0, 50256, 0, 0] ∧
    decodeTokens g_vocab_initial [0, 50256, 7] =
      decodeTokens g_vocab_initial ([0, 50256, 7].take 1) :=
  decodeTokens_before_eot g_vocab_initial [0, 50256, 7] [0, 50256, 0, 0] 1 rfl rfl rfl

/-- C6. After a successful `initVocab`, on any blob and in either mode, decoding the
one-element sequence made of the end-of-text ID then in force gives the empty string. -/
theorem decodeTokens_eot_alone (bm be : List Byte) (b : Bool) (st st' : Globals)
    (_h : initVocab bm be b st = some (0, st')) :
    decodeTokens st'.g_vocab [st'.g_vocab.token_eot] = some [] := by
  simp [decodeTokens, decodeLoop]

/-- Witness for C6: on the scenario blob loaded in multilingual mode from the initial state. -/
theorem decodeTokens_eot_alone_witness :
    ∃ st', initVocab scenarioBlob scenarioBlob true initialGlobals = some (0, st') ∧
      decodeTokens st'.g_vocab [st'.g_vocab.token_eot] = some [] :=
  have h := initVocab_layoutWith scenarioBlob scenarioBlob true initialGlobals 2 3
    scenarioFloats 1 [lit "hi"] [] (List.append_nil _).symm (by decide) (by decide)
    (by decide) (by decide) (by decide) (by decide)
  ⟨_, h, decodeTokens_eot_alone scenarioBlob scenarioBlob true initialGlobals _ h⟩

/-- C7. From one prior state whose six special-token IDs are `int` values below the
largest, a successful multilingual load leaves each of `token_eot`, `token_sot`,
`token_prev`, `token_solm`, `token_not` and `token_beg` exactly 1 above what a
successful monolingual load leaves.  The multilingual load writes a label at every ID
from its `n_vocab` up to 51865 exclusive and leaves every entry from 51865 on (and not
below `n_vocab`) as it was; the monolingual one writes up to 51864 exclusive and leaves
every entry from 51864 on as it was; and the labels of the multilingual load are
computed from the incremented IDs. -/
theorem multilingual_shift (bm be : List Byte) (st s_mono s_multi : Globals)
    (h_mono : initVocab bm be false st = some (0, s_mono))
    (h_multi : initVocab bm be true st = some (0, s_multi))
    (hids : ∀ x ∈ specialIds st.g_vocab, -2147483648 ≤ x ∧ x < 2147483647) :
    (s_multi.g_vocab.token_eot = s_mono.g_vocab.token_eot + 1 ∧
     s_multi.g_vocab.token_sot = s_mono.g_vocab.token_sot + 1 ∧
     s_multi.g_vocab.token_prev = s_mono.g_vocab.token_prev + 1 ∧
     s_multi.g_vocab.token_solm = s_mono.g_vocab.token_solm + 1 ∧
     s_multi.g_vocab.token_not = s_mono.g_vocab.token_not + 1 ∧
     s_multi.g_vocab.token_beg = s_mono.g_vocab.token_beg + 1) ∧
    (∀ n i, declaredVocab bm = some n → n ≤ i → i < 51865 →
      mapGet s_multi.g_vocab.id_to_token i = some (synthWord s_multi.g_vocab i)) ∧
    (∀ n i, declaredVocab be = some n → n ≤ i → i < 51864 →
      mapGet s_mono.g_vocab.id_to_token i = some (synthWord s_mono.g_vocab i)) ∧
    (∀ n, declaredVocab be = some n → n ≤ 51864 →
      mapGet s_mono.g_vocab.id_to_token 51864 = mapGet st.g_vocab.id_to_token 51864) ∧
    (∀ i, synthWord s_multi.g_vocab i =
      synthWord { st.g_vocab with
        token_eot := st.g_vocab.token_eot + 1
        token_sot := st.g_vocab.token_sot + 1
        token_prev := st.g_vocab.token_prev + 1
        token_solm := st.g_vocab.token_solm + 1
        token_not := st.g_vocab.token_not + 1
        token_beg := st.g_vocab.token_beg + 1 } i) ∧
    (∀ n j, declaredVocab bm = some n → n ≤ j → 51865 ≤ j →
      mapGet s_multi.g_vocab.id_to_token j = mapGet st.g_vocab.id_to_token j) ∧
    (∀ n j, declaredVocab be = some n → n ≤ j → 51864 ≤ j →
      mapGet s_mono.g_vocab.id_to_token j = mapGet st.g_vocab.id_to_token j) := by
  obtain ⟨_, a1, a2, a3, a4, a5, a6⟩ := initVocab_fields bm be false st s_mono h_mono
  obtain ⟨_, b1, b2, b3, b4, b5, b6⟩ := initVocab_fields bm be true st s_multi h_multi
  have e1 := hids st.g_vocab.token_eot (by simp [specialIds])
  have e2 := hids st.g_vocab.token_sot (by simp [specialIds])
  have e3 := hids st.g_vocab.token_prev (by simp [specialIds])
  have e4 := hids st.g_vocab.token_solm (by simp [specialIds])
  have e5 := hids st.g_vocab.token_not (by simp [specialIds])
  have e6 := hids st.g_vocab.token_beg (by simp [specialIds])
  have c1 : s_multi.g_vocab.token_eot = st.g_vocab.token_eot + 1 := by
    rw [b1]; exact toInt32_of_int32 _ (by omega) (by omega)
  have c2 : s_multi.g_vocab.token_sot = st.g_vocab.token_sot + 1 := by
    rw [b2]; exact toInt32_of_int32 _ (by omega) (by omega)
  have c3 : s_multi.g_vocab.token_prev = st.g_vocab.token_prev + 1 := by
    rw [b3]; exact toInt32_of_int32 _ (by omega) (by omega)
  have c4 : s_multi.g_vocab.token_solm = st.g_vocab.token_solm + 1 := by
    rw [b4]; exact toInt32_of_int32 _ (by omega) (by omega)
  have c5 : s_multi.g_vocab.token_not = st.g_vocab.token_not + 1 := by
    rw [b5]; exact toInt32_of_int32 _ (by omega) (by omega)
  have c6 : s_multi.g_vocab.token_beg = st.g_vocab.token_beg + 1 := by
    rw [b6]; exact toInt32_of_int32 _ (by omega) (by omega)
  have d1 : s_mono.g_vocab.token_eot = st.g_vocab.token_eot := a1
  have d2 : s_mono.g_vocab.token_sot = st.g_vocab.token_sot := a2
  have d3 : s_mono.g_vocab.token_prev = st.g_vocab.token_prev := a3
  have d4 : s_mono.g_vocab.token_solm = st.g_vocab.token_solm := a4
  have d5 : s_mono.g_vocab.token_not = st.g_vocab.token_not := a5
  have d6 : s_mono.g_vocab.token_beg = st.g_vocab.token_beg := a6
  refine ⟨⟨by rw [c1, d1], by rw [c2, d2], by rw [c3, d3], by rw [c4, d4], by rw [c5, d5],
    by rw [c6, d6]⟩, ?_, ?_, ?_, ?_, ?_, ?_⟩
  · intro n i hn h1 h2
    exact initVocab_synthesized bm be true st s_multi n i h_multi hn h1 h2
  · intro n i hn h1 h2
    exact initVocab_synthesized bm be false st s_mono n i h_mono hn h1 h2
  · intro n hn h1
    exact initVocab_above bm be false st s_mono n 51864 h_mono hn h1 (le_refl _)
  · intro i
    simp only [synthWord, c1, c2, c3, c5, c6]
  · intro n j hn h1 h2
    exact initVocab_above bm be true st s_multi n j h_multi hn h1 h2
  · intro n j hn h1 h2
    exact initVocab_above bm be false st s_mono n j h_mono hn h1 h2

/-- Witness for C7: on the scenario blob loaded in both modes from the initial state: the
end-of-text ID after the multilingual load is 1 above that after the monolingual load,
and the multilingual load leaves the entry of ID 51865 as it was. -/
theorem multilingual_shift_witness :
    ∃ s_mono s_multi,
      initVocab scenarioBlob scenarioBlob false initialGlobals = some (0, s_mono) ∧
      initVocab scenarioBlob scenarioBlob true initialGlobals = some (0, s_multi) ∧
      s_multi.g_vocab.token_eot = s_mono.g_vocab.token_eot + 1 ∧
      s_multi.g_vocab.token_beg = s_mono.g_vocab.token_beg + 1 ∧
      mapGet s_multi.g_vocab.id_to_token 51864 = some (synthWord s_multi.g_vocab 51864) ∧
      mapGet s_multi.g_vocab.id_to_token 51865 =
        mapGet initialGlobals.g_vocab.id_to_token 51865 :=
  have h1 := initVocab_scenarioBlob_both false initialGlobals
  have h2 := initVocab_scenarioBlob_both true initialGlobals
  have h := multilingual_shift scenarioBlob scenarioBlob initialGlobals _ _ h1 h2 (by decide)
  ⟨_, _, h1, h2, h.1.1, h.1.2.2.2.2.2,
    h.2.1 1 51864 declaredVocab_scenarioBlob (by decide) (by decide),
    h.2.2.2.2.2.1 1 51865 declaredVocab_scenarioBlob (by decide) (by decide)⟩

/-- C9. After a successful load, in either mode, every ID `i` with
`n_vocab ≤ i < n_vocab_total` that is strictly greater than the timestamp-begin ID
`token_beg` then in force has the entry "[_TT_" followed by the decimal rendering
of `i - token_beg` followed by "]".  The difference is taken in `int`, so it is
assumed to fit one. -/
theorem synthesized_timestamp_label (bm be : List Byte) (b : Bool) (st st' : Globals)
    (n i : Int) (h : initVocab bm be b st = some (0, st'))
    (hn : declaredVocab (if b then bm else be) = some n)
    (h1 : n ≤ i) (h2 : i < n_vocab_total b) (h3 : st'.g_vocab.token_beg < i)
    (hov : i - st'.g_vocab.token_beg < 2147483648) :
    mapGet st'.g_vocab.id_to_token i =
      some (lit "[_TT_" ++ to_string (i - st'.g_vocab.token_beg) ++ lit "]") := by
  rw [initVocab_synthesized bm be b st st' n i h hn h1 h2]
  have hgt : i > st'.g_vocab.token_beg := h3
  have hw : toInt32 (i - st'.g_vocab.token_beg) = i - st'.g_vocab.token_beg :=
    toInt32_of_int32 _ (by omega) hov
  simp only [synthWord, if_pos hgt, hw]

/-- Witness for C9: on the scenario blob loaded in monolingual mode from the initial state, at
ID 50364, the first above the timestamp-begin ID 50363. -/
theorem synthesized_timestamp_label_witness :
    ∃ st', initVocab scenarioBlob scenarioBlob false initialGlobals = some (0, st') ∧
      mapGet st'.g_vocab.id_to_token 50364 =
        some (lit "[_TT_" ++ to_string (50364 - st'.g_vocab.token_beg) ++ lit "]") :=
  have h := initVocab_scenarioBlob scenarioBlob false initialGlobals
  have hb : (loaded false initialGlobals 2 3 scenarioFloats 1
      (insertWords initialGlobals.g_vocab.id_to_token 0 [lit "hi"])).g_vocab.token_beg = 50363 :=
    (fields_loaded false initialGlobals 2 3 scenarioFloats 1 _).2.2.2.2.2.2
  ⟨_, h, synthesized_timestamp_label scenarioBlob scenarioBlob false initialGlobals _ 1 50364
    h declaredVocab_scenarioBlob (by decide) (by decide) (by rw [hb]; decide)
    (by rw [hb]; decide)⟩

/-- C10. After a successful load, in either mode, every ID `i` with
`n_vocab ≤ i < n_vocab_total` and `i ≤ token_beg` has the entry "[_EOT_]" if
`i = token_eot`, else "[_SOT_]" if `i = token_sot`, else "[_PREV_]" if
`i = token_prev`, else "[_NOT_]" if `i = token_not`, else "[_BEG_]" if
`i = token_beg`, and otherwise (so also for `i = token_solm`) "[_extra_token_"
followed by the decimal rendering of `i` followed by "]".  In particular the entry
of `token_eot` is "[_EOT_]" when `token_eot` is such an ID. -/
theorem synthesized_fixed_label (bm be : List Byte) (b : Bool) (st st' : Globals)
    (n i : Int) (h : initVocab bm be b st = some (0, st'))
    (hn : declaredVocab (if b then bm else be) = some n)
    (h1 : n ≤ i) (h2 : i < n_vocab_total b) (h3 : i ≤ st'.g_vocab.token_beg) :
    mapGet st'.g_vocab.id_to_token i = some
      (if i = st'.g_vocab.token_eot then lit "[_EOT_]"
       else if i = st'.g_vocab.token_sot then lit "[_SOT_]"
       else if i = st'.g_vocab.token_prev then lit "[_PREV_]"
       else if i = st'.g_vocab.token_not then lit "[_NOT_]"
       else if i = st'.g_vocab.token_beg then lit "[_BEG_]"
       else lit "[_extra_token_" ++ to_string i ++ lit "]") ∧
    (i = st'.g_vocab.token_eot →
      mapGet st'.g_vocab.id_to_token st'.g_vocab.token_eot = some (lit "[_EOT_]")) := by
  have hle : ¬ (i > st'.g_vocab.token_beg) := by omega
  have hmain := initVocab_synthesized bm be b st st' n i h hn h1 h2
  simp only [synthWord, if_neg hle] at hmain
  refine ⟨hmain, fun he => ?_⟩
  rw [← he, hmain, if_pos he]

/-- Witness for C10: on the scenario blob (`n_vocab = 1`) loaded in monolingual mode from the
initial state: the entry of the end-of-text ID 50256 is "[_EOT_]". -/
theorem synthesized_fixed_label_witness :
    ∃ st', initVocab scenarioBlob scenarioBlob false initialGlobals = some (0, st') ∧
      st'.g_vocab.token_eot = 50256 ∧
      mapGet st'.g_vocab.id_to_token st'.g_vocab.token_eot = some (lit "[_EOT_]") :=
  have h := initVocab_scenarioBlob scenarioBlob false initialGlobals
  have hf := fields_loaded false initialGlobals 2 3 scenarioFloats 1
    (insertWords initialGlobals.g_vocab.id_to_token 0 [lit "hi"])
  have he : (loaded false initialGlobals 2 3 scenarioFloats 1
      (insertWords initialGlobals.g_vocab.id_to_token 0 [lit "hi"])).g_vocab.token_eot = 50256 :=
    hf.2.1
  have hb : (loaded false initialGlobals 2 3 scenarioFloats 1
      (insertWords initialGlobals.g_vocab.id_to_token 0 [lit "hi"])).g_vocab.token_beg = 50363 :=
    hf.2.2.2.2.2.2
  ⟨_, h, he, (synthesized_fixed_label scenarioBlob scenarioBlob false initialGlobals _ 1 50256
    h declaredVocab_scenarioBlob (by decide) (by decide) (by rw [hb]; decide)).2 he.symm⟩

/-- C8, evaluated on reloads of the scenario blob from the initial state.  A second
multilingual load leaves the end-of-text ID at 50258, where the first left 50257; a
monolingual load that follows a multilingual one leaves it at 50257 with
`g_vocab.n_vocab = 51865` and the entry "[_extra_token_50256]" at ID 50256, where a
monolingual load from the initial state leaves 50256, 51864 and "[_EOT_]". -/
theorem reload_accumulates :
    ∃ s1 s2 s3 s4,
      initVocab scenarioBlob scenarioBlob true initialGlobals = some (0, s1) ∧
      initVocab scenarioBlob scenarioBlob true s1 = some (0, s2) ∧
      initVocab scenarioBlob scenarioBlob false s1 = some (0, s3) ∧
      initVocab scenarioBlob scenarioBlob false initialGlobals = some (0, s4) ∧
      s1.g_vocab.token_eot = 50257 ∧ s2.g_vocab.token_eot = 50258 ∧
      s3.g_vocab.token_eot = 50257 ∧ s4.g_vocab.token_eot = 50256 ∧
      s3.g_vocab.n_vocab = 51865 ∧ s4.g_vocab.n_vocab = 51864 ∧
      mapGet s3.g_vocab.id_to_token 50256 = some (lit "[_extra_token_50256]") ∧
      mapGet s4.g_vocab.id_to_token 50256 = some (lit "[_EOT_]") := by
  have h1 := initVocab_scenarioBlob_both true initialGlobals
  have h2 := initVocab_scenarioBlob_both true (loaded true initialGlobals 2 3 scenarioFloats 1
    (insertWords initialGlobals.g_vocab.id_to_token 0 [lit "hi"]))
  have h3 := initVocab_scenarioBlob_both false (loaded true initialGlobals 2 3 scenarioFloats 1
    (insertWords initialGlobals.g_vocab.id_to_token 0 [lit "hi"]))
  have h4 := initVocab_scenarioBlob_both false initialGlobals
  obtain ⟨n1, e1, t1, p1, _, o1, b1⟩ := fields_loaded_true initialGlobals 2 3 scenarioFloats 1
    (insertWords initialGlobals.g_vocab.id_to_token 0 [lit "hi"])
  have e2 := (fields_loaded_true (loaded true initialGlobals 2 3 scenarioFloats 1
    (insertWords initialGlobals.g_vocab.id_to_token 0 [lit "hi"])) 2 3 scenarioFloats 1
    (insertWords (loaded true initialGlobals 2 3 scenarioFloats 1
      (insertWords initialGlobals.g_vocab.id_to_token 0 [lit "hi"])).g_vocab.id_to_token
      0 [lit "hi"])).2.1
  obtain ⟨n3, e3, t3, p3, _, o3, b3⟩ := fields_loaded_false (loaded true initialGlobals 2 3
    scenarioFloats 1 (insertWords initialGlobals.g_vocab.id_to_token 0 [lit "hi"])) 2 3
    scenarioFloats 1
    (insertWords (loaded true initialGlobals 2 3 scenarioFloats 1
      (insertWords initialGlobals.g_vocab.id_to_token 0 [lit "hi"])).g_vocab.id_to_token
      0 [lit "hi"])
  obtain ⟨n4, e4, t4, p4, _, o4, b4⟩ := fields_loaded_false initialGlobals 2 3 scenarioFloats 1
    (insertWords initialGlobals.g_vocab.id_to_token 0 [lit "hi"])
  rw [e1] at e2 e3
  rw [n1] at n3
  rw [t1] at t3
  rw [p1] at p3
  rw [o1] at o3
  rw [b1] at b3
  have hin : (1 : Int) ≤ 50256 ∧ (50256 : Int) < n_vocab_total false := by decide
  refine ⟨_, _, _, _, h1, h2, h3, h4, e1.trans (by decide), e2.trans (by decide),
    e3.trans (by decide), e4.trans (by decide), n3, n4.trans (by decide), ?_, ?_⟩
  · rw [mapGet_loaded, if_pos hin, synthWord_extra _ 50256 (by rw [b3]; decide)
      (by rw [e3]; decide) (by rw [t3]; decide) (by rw [p3]; decide) (by rw [o3]; decide)
      (by rw [b3]; decide)]
    decide
  · rw [mapGet_loaded, if_pos hin, synthWord_eot _ 50256 (by rw [b4]; decide)
      (by rw [e4]; decide)]

/-! ## The feature extractor's buffer -/

theorem resize_length (v : List FloatWord) (n : Nat) (x : FloatWord) :
    (resize v n x).length = n := by
  unfold resize
  by_cases h : n ≤ v.length
  · rw [if_pos h, List.length_take]; omega
  · rw [if_neg h, List.length_append, List.length_replicate]; omega

theorem resize_of_short (v : List FloatWord) (n : Nat) (x : FloatWord) (h : v.length < n) :
    resize v n x = v ++ List.replicate (n - v.length) x := by
  unfold resize
  rw [if_neg (by omega)]

theorem resize_of_long (v : List FloatWord) (n : Nat) (x : FloatWord) (h : n ≤ v.length) :
    resize v n x = v.take n := by
  unfold resize
  rw [if_pos h]

theorem resize_idem (v : List FloatWord) (n : Nat) (x : FloatWord) :
    resize (resize v n x) n x = resize v n x := by
  have hl := resize_length v n x
  rw [resize_of_long (resize v n x) n x (by omega)]
  exact List.take_of_length_le (by omega)

/-- C12. For every sample buffer shorter than the chunk length
`N = WHISPER_SAMPLE_RATE * WHISPER_CHUNK_SIZE`, every filter bank and every `mel`
object, `computeMel` on the buffer gives what it gives on the buffer followed by
`N - |s|` zeros, `log_mel_spectrogram` being a function of its arguments. -/
theorem computeMel_zero_padded (env : MelEnv) (filters : whisper_filters) (mel : whisper_mel)
    (s : List FloatWord) (h : s.length < chunkLength env) :
    computeMel env filters mel s =
      computeMel env filters mel (s ++ List.replicate (chunkLength env - s.length) 0) := by
  have h1 : resizedSamples env (s ++ List.replicate (chunkLength env - s.length) 0) =
      resizedSamples env s := by
    unfold resizedSamples
    rw [← resize_of_short s (chunkLength env) 0 h, resize_idem]
  unfold computeMel
  rw [h1]

/-- Witness for C12: a buffer of two samples, with the constants of the Whisper
reference. -/
theorem computeMel_zero_padded_witness :
    computeMel sampleEnv initialGlobals.filters emptyMel [1, 2] =
      computeMel sampleEnv initialGlobals.filters emptyMel
        ([1, 2] ++ List.replicate (chunkLength sampleEnv - [(1 : FloatWord), 2].length) 0) :=
  computeMel_zero_padded sampleEnv initialGlobals.filters emptyMel [1, 2] (by decide)

/-- C13. The buffer `computeMel` hands to `log_mel_spectrogram` has exactly
`N = WHISPER_SAMPLE_RATE * WHISPER_CHUNK_SIZE` elements: the first `N` samples of `s`
when `|s| ≥ N`, and `s` followed by `N - |s|` zeros when `|s| < N`; `computeMel`
returns the data of the `mel` object the routine leaves on that buffer; and so
`computeMel` on an `s` longer than `N` gives what it gives on the first `N` samples. -/
theorem computeMel_buffer (env : MelEnv) (filters : whisper_filters) (mel : whisper_mel)
    (s : List FloatWord) :
    (resizedSamples env s).length = chunkLength env ∧
    (chunkLength env ≤ s.length → resizedSamples env s = s.take (chunkLength env)) ∧
    (s.length < chunkLength env →
      resizedSamples env s = s ++ List.replicate (chunkLength env - s.length) 0) ∧
    computeMel env filters mel s =
      ((env.log_mel_spectrogram (resizedSamples env s) (chunkLength env)
          env.WHISPER_SAMPLE_RATE env.WHISPER_N_FFT env.WHISPER_HOP_LENGTH env.WHISPER_N_MEL
          (max 2 env.hardware_concurrency) filters mel).data,
       env.log_mel_spectrogram (resizedSamples env s) (chunkLength env)
          env.WHISPER_SAMPLE_RATE env.WHISPER_N_FFT env.WHISPER_HOP_LENGTH env.WHISPER_N_MEL
          (max 2 env.hardware_concurrency) filters mel) ∧
    (chunkLength env < s.length →
      computeMel env filters mel s = computeMel env filters mel (s.take (chunkLength env))) := by
  have hl : (resizedSamples env s).length = chunkLength env := resize_length s _ 0
  refine ⟨hl, fun h => resize_of_long s _ 0 h, fun h => resize_of_short s _ 0 h, ?_, ?_⟩
  · simp only [computeMel, hl]
  · intro h
    have h1 : resizedSamples env (s.take (chunkLength env)) = resizedSamples env s := by
      unfold resizedSamples
      rw [← resize_of_long s (chunkLength env) 0 (by omega), resize_idem]
    unfold computeMel
    rw [h1]

/-- Witness for C13: a buffer of two samples, with the constants of the Whisper
reference. -/
theorem computeMel_buffer_witness :
    (resizedSamples sampleEnv [1, 2]).length = chunkLength sampleEnv ∧
    resizedSamples sampleEnv [1, 2] =
      [1, 2] ++ List.replicate (chunkLength sampleEnv - [(1 : FloatWord), 2].length) 0 :=
  ⟨(computeMel_buffer sampleEnv initialGlobals.filters emptyMel [1, 2]).1,
   (computeMel_buffer sampleEnv initialGlobals.filters emptyMel [1, 2]).2.2.1 (by decide)⟩

/-- C15. Tokens above the end-of-text boundary are never rendered: for every token
sequence, removing every token with an ID strictly greater than `token_eot` leaves the
result of `decodeTokens` unchanged; the result is the concatenation of the fragments of
tokens that all have an ID strictly below `token_eot`; and it is the same for every
table that agrees below `token_eot`, whatever the entries at and above it. -/
theorem decodeTokens_above_eot_ignored (g : whisper_vocab) (tokens : List Int) :
    decodeTokens g (tokens.filter (fun t => decide (t ≤ g.token_eot))) = decodeTokens g tokens ∧
    (decodeTokens g tokens =
        concatFragments ((renderedTokens g tokens).map (whisper_token_to_str g)) ∧
      ∀ t ∈ renderedTokens g tokens, t < g.token_eot) ∧
    (∀ g' : whisper_vocab, g'.token_eot = g.token_eot →
      (∀ t, t < g.token_eot → mapGet g'.id_to_token t = mapGet g.id_to_token t) →
      decodeTokens g' tokens = decodeTokens g tokens) := by
  refine ⟨?_, ⟨decodeTokens_rendered g tokens, renderedTokens_lt g tokens⟩, ?_⟩
  · rw [decodeTokens_rendered, decodeTokens_rendered, renderedTokens_filter_le]
  · intro g' he hagree
    have hr : renderedTokens g' tokens = renderedTokens g tokens := by
      unfold renderedTokens
      rw [he]
    rw [decodeTokens_rendered, decodeTokens_rendered, hr]
    congr 1
    apply List.map_congr_left
    intro t ht
    exact hagree t (renderedTokens_lt g tokens t ht)

/-- Witness for C15: with the end-of-text ID 50256, the sequence `[7, 60000, 8]`
decodes alike on the empty table and on a table with an entry for ID 60000 alone. -/
theorem decodeTokens_above_eot_ignored_witness :
    decodeTokens { g_vocab_initial with id_to_token := [(60000, lit "x")] } [7, 60000, 8] =
      decodeTokens g_vocab_initial [7, 60000, 8] :=
  (decodeTokens_above_eot_ignored g_vocab_initial [7, 60000, 8]).2.2
    { g_vocab_initial with id_to_token := [(60000, lit "x")] } rfl
    (fun t ht => by
      have h1 : t < 50256 := ht
      show (if t = 60000 then some (lit "x") else none) = none
      rw [if_neg (by omega)])

/-- C17. The decoder distributes over concatenation up to the stop token: when `a` does
not contain `token_eot`, decoding `a ++ b` gives the decoding of `a` followed by the
decoding of `b`; when `a` contains `token_eot`, decoding `a ++ b` gives the decoding
of `a`. -/
theorem decodeTokens_append (g : whisper_vocab) (a b : List Int) :
    (g.token_eot ∉ a →
      decodeTokens g (a ++ b) = appendResults (decodeTokens g a) (decodeTokens g b)) ∧
    (g.token_eot ∈ a → decodeTokens g (a ++ b) = decodeTokens g a) := by
  constructor
  · intro h
    rw [decodeTokens_rendered, decodeTokens_rendered, decodeTokens_rendered,
      renderedTokens_append_of_not_mem g a b h, List.map_append, concatFragments_append]
  · intro h
    rw [decodeTokens_rendered, decodeTokens_rendered, renderedTokens_append_of_mem g a b h]

/-- Witness for C17: with the end-of-text ID 50256, `[50300] ++ [50256, 7]` and
`[50300, 50256] ++ [7]`. -/
theorem decodeTokens_append_witness :
    decodeTokens g_vocab_initial ([50300] ++ [50256, 7]) =
      appendResults (decodeTokens g_vocab_initial [50300])
        (decodeTokens g_vocab_initial [50256, 7]) ∧
    decodeTokens g_vocab_initial ([50300, 50256] ++ [7]) =
      decodeTokens g_vocab_initial [50300, 50256] :=
  ⟨(decodeTokens_append g_vocab_initial [50300] [50256, 7]).1 (by decide),
   (decodeTokens_append g_vocab_initial [50300, 50256] [7]).2 (by decide)⟩

/-- C11. The table is dense after a successful load: for every blob that declares
`n_vocab ≥ 0`, in either mode, every ID in `[0, n_vocab_total)` (51864 monolingual,
51865 multilingual) has an entry in `id_to_token`; the blob is the layout of some
`n_vocab` fragments, and the IDs in `[0, n_vocab)` hold these fragments in order; the
IDs in `[n_vocab, n_vocab_total)` hold the synthesized labels. -/
theorem table_dense (bm be : List Byte) (b : Bool) (st st' : Globals) (n : Int)
    (h : initVocab bm be b st = some (0, st'))
    (hn : declaredVocab (if b then bm else be) = some n) (h0 : 0 ≤ n) :
    (n_vocab_total b = if b then 51865 else 51864) ∧
    (∀ i, 0 ≤ i → i < n_vocab_total b → (mapGet st'.g_vocab.id_to_token i).isSome) ∧
    (∃ n_mel n_fft floats words rest,
      (if b then bm else be) = layoutWith WSPR n_mel n_fft floats n words ++ rest ∧
      (words.length : Int) = n ∧
      ∀ (k : Nat) (hk : k < words.length),
        mapGet st'.g_vocab.id_to_token (k : Int) = some (words.get ⟨k, hk⟩)) ∧
    (∀ i, n ≤ i → i < n_vocab_total b →
      mapGet st'.g_vocab.id_to_token i = some (synthWord st'.g_vocab i)) := by
  obtain ⟨n_mel, n_fft, floats, n', words, rest, hblob, _, _, _, _, hlen, _, hdecl, hst⟩ :=
    initVocab_success_layout bm be b st st' h
  rw [hn] at hdecl
  have hnn : n = n' := Option.some.inj hdecl
  subst hnn
  have hwl : (words.length : Int) = n := by rw [hlen]; omega
  have hentry : ∀ (k : Nat) (hk : k < words.length),
      mapGet st'.g_vocab.id_to_token (k : Int) = some (words.get ⟨k, hk⟩) := by
    intro k hk
    have hnot : ¬ (n ≤ (k : Int) ∧ (k : Int) < n_vocab_total b) := by omega
    have hin : (0 : Int) ≤ (k : Int) ∧ (k : Int) < 0 + (words.length : Int) := by omega
    have hidx : ((k : Int) - 0).toNat = k := by omega
    rw [hst, mapGet_loaded_layout, if_neg hnot, if_pos hin, hidx, List.getElem?_eq_getElem hk]
    rfl
  refine ⟨rfl, ?_, ⟨n_mel, n_fft, floats, words, rest, hblob, hwl, hentry⟩, ?_⟩
  · intro i hi0 hiN
    by_cases hc : n ≤ i
    · rw [hst, mapGet_loaded_layout, if_pos ⟨hc, hiN⟩]; rfl
    · have hk : i.toNat < words.length := by omega
      have hi : ((i.toNat : Nat) : Int) = i := by omega
      have he := hentry i.toNat hk
      rw [hi] at he
      rw [he]; rfl
  · intro i h1 h2
    rw [hst, mapGet_loaded_layout, if_pos ⟨h1, h2⟩]

/-- Witness for C11: on the scenario blob loaded in monolingual mode from the initial
state: the IDs 0 and 51863 have an entry. -/
theorem table_dense_witness :
    ∃ st', initVocab scenarioBlob scenarioBlob false initialGlobals = some (0, st') ∧
      (mapGet st'.g_vocab.id_to_token 0).isSome ∧
      (mapGet st'.g_vocab.id_to_token 51863).isSome :=
  have h := initVocab_scenarioBlob_both false initialGlobals
  have hd := table_dense scenarioBlob scenarioBlob false initialGlobals _ 1 h
    declaredVocab_scenarioBlob (by decide)
  ⟨_, h, hd.2.1 0 (by decide) (by decide), hd.2.1 51863 (by decide) (by decide)⟩

/-- C16. Lookup safety of the decoder: after a successful load of a blob that declares
`n_vocab ≥ 0`, with `token_eot < n_vocab_total`, every token the decoder looks up has
an ID strictly below `token_eot`, and has an entry when its ID is not negative; so a
sequence of non-negative IDs decodes without a miss, and a miss implies a negative ID
in the sequence. -/
theorem decodeTokens_lookup_safe (bm be : List Byte) (b : Bool) (st st' : Globals) (n : Int)
    (h : initVocab bm be b st = some (0, st'))
    (hn : declaredVocab (if b then bm else be) = some n) (h0 : 0 ≤ n)
    (he : st'.g_vocab.token_eot < n_vocab_total b) (tokens : List Int) :
    (∀ t ∈ renderedTokens st'.g_vocab tokens, t < st'.g_vocab.token_eot ∧
      (0 ≤ t → (whisper_token_to_str st'.g_vocab t).isSome)) ∧
    ((∀ t ∈ tokens, 0 ≤ t) → (decodeTokens st'.g_vocab tokens).isSome) ∧
    (decodeTokens st'.g_vocab tokens = none → ∃ t ∈ tokens, t < 0) := by
  obtain ⟨n_mel, n_fft, floats, n', words, rest, _, _, _, _, _, hlen, _, hdecl, hst⟩ :=
    initVocab_success_layout bm be b st st' h
  rw [hn] at hdecl
  have hnn : n = n' := Option.some.inj hdecl
  subst hnn
  have hdense : ∀ i, 0 ≤ i → i < n_vocab_total b →
      (mapGet st'.g_vocab.id_to_token i).isSome := by
    intro i hi0 hiN
    by_cases hc : n ≤ i
    · rw [hst, mapGet_loaded_layout, if_pos ⟨hc, hiN⟩]; rfl
    · have hin : (0 : Int) ≤ i ∧ i < 0 + (words.length : Int) := by omega
      have hnot : ¬ (n ≤ i ∧ i < n_vocab_total b) := by omega
      have hk : (i - 0).toNat < words.length := by omega
      rw [hst, mapGet_loaded_layout, if_neg hnot, if_pos hin, List.getElem?_eq_getElem hk]
      rfl
  have hlook : ∀ t ∈ renderedTokens st'.g_vocab tokens, t < st'.g_vocab.token_eot ∧
      (0 ≤ t → (whisper_token_to_str st'.g_vocab t).isSome) := by
    intro t ht
    have hlt := renderedTokens_lt st'.g_vocab tokens t ht
    exact ⟨hlt, fun hpos => hdense t hpos (by omega)⟩
  have hsafe : (∀ t ∈ tokens, 0 ≤ t) → (decodeTokens st'.g_vocab tokens).isSome := by
    intro hpos
    rw [decodeTokens_rendered]
    apply concatFragments_of_all_some
    intro o ho
    obtain ⟨t, ht, hto⟩ := List.mem_map.mp ho
    rw [← hto]
    exact (hlook t ht).2 (hpos t (renderedTokens_mem st'.g_vocab tokens t ht))
  refine ⟨hlook, hsafe, fun hnone => ?_⟩
  by_contra hc
  have hpos : ∀ t ∈ tokens, 0 ≤ t := by
    intro t ht
    by_contra hneg
    exact hc ⟨t, ht, by omega⟩
  have := hsafe hpos
  rw [hnone] at this
  exact absurd this (by simp)

/-- Witness for C16: on the scenario blob loaded in monolingual mode from the initial
state, where `token_eot = 50256 < 51864`: the sequence `[0, 50000, 50256, 3]` decodes
without a miss. -/
theorem decodeTokens_lookup_safe_witness :
    ∃ st', initVocab scenarioBlob scenarioBlob false initialGlobals = some (0, st') ∧
      (decodeTokens st'.g_vocab [0, 50000, 50256, 3]).isSome :=
  have h := initVocab_scenarioBlob_both false initialGlobals
  have he : (loaded false initialGlobals 2 3 scenarioFloats 1
      (insertWords initialGlobals.g_vocab.id_to_token 0 [lit "hi"])).g_vocab.token_eot <
      n_vocab_total false := by
    rw [(fields_loaded_false initialGlobals 2 3 scenarioFloats 1 _).2.1]; decide
  ⟨_, h, (decodeTokens_lookup_safe scenarioBlob scenarioBlob false initialGlobals _ 1 h
    declaredVocab_scenarioBlob (by decide) he [0, 50000, 50256, 3]).2.1 (by decide)⟩

/-- C20 as stated fails on a negative count: the blob that declares `n_vocab = -1` loads
with status 0 in monolingual mode from the initial state; the ID -1 lies outside
`[0, max(n_vocab, n_vocab_total))`, it has no entry before the call, and after the call
its entry is "[_extra_token_-1]". -/
theorem table_frame_counterexample :
    ∃ st', initVocab negativeCountBlob negativeCountBlob false initialGlobals = some (0, st') ∧
      declaredVocab negativeCountBlob = some (-1) ∧
      ¬ ((0 : Int) ≤ -1 ∧ (-1 : Int) < max (-1) (n_vocab_total false)) ∧
      mapGet initialGlobals.g_vocab.id_to_token (-1) = none ∧
      mapGet st'.g_vocab.id_to_token (-1) = some (lit "[_extra_token_-1]") := by
  have hblob : (if false then negativeCountBlob else negativeCountBlob) =
      layoutWith WSPR 0 0 [] (-1) [] ++ [] := (List.append_nil _).symm
  have h := initVocab_layoutWith negativeCountBlob negativeCountBlob false initialGlobals 0 0 []
    (-1) [] [] hblob (by decide) (by decide) (by decide) (by decide) (by decide) (by decide)
  have hd := declaredVocab_layoutWith WSPR 0 0 [] (-1) [] [] (by decide) (by decide)
    (by decide) (by decide)
  rw [List.append_nil] at hd
  obtain ⟨_, e, t, p, _, o, bg⟩ := fields_loaded_false initialGlobals 0 0 [] (-1)
    (insertWords initialGlobals.g_vocab.id_to_token 0 [])
  have hin : (-1 : Int) ≤ -1 ∧ (-1 : Int) < n_vocab_total false := by decide
  refine ⟨_, h, hd, by decide, rfl, ?_⟩
  rw [mapGet_loaded, if_pos hin, synthWord_extra _ (-1) (by rw [bg]; decide)
    (by rw [e]; decide) (by rw [t]; decide) (by rw [p]; decide) (by rw [o]; decide)
    (by rw [bg]; decide)]
  decide

/-- C20, amended. A successful `initVocab` on a blob that declares `n_vocab` writes
exactly the table keys in `[min(0, n_vocab), max(n_vocab, n_vocab_total))`, which is
`[0, max(n_vocab, n_vocab_total))` when `n_vocab ≥ 0`: the table after the call is the
table before it with assignments to exactly these keys put in front.  No entry is
removed, and every entry with an ID outside that range is unchanged. -/
theorem table_frame (bm be : List Byte) (b : Bool) (st st' : Globals) (n : Int)
    (h : initVocab bm be b st = some (0, st'))
    (hn : declaredVocab (if b then bm else be) = some n) :
    (∃ W : TokenMap, st'.g_vocab.id_to_token = W ++ st.g_vocab.id_to_token ∧
      ∀ j, j ∈ W.map Prod.fst ↔ (min 0 n ≤ j ∧ j < max n (n_vocab_total b))) ∧
    (0 ≤ n → min 0 n = 0) ∧
    (∀ j, (mapGet st.g_vocab.id_to_token j).isSome →
      (mapGet st'.g_vocab.id_to_token j).isSome) ∧
    (∀ j, ¬ (min 0 n ≤ j ∧ j < max n (n_vocab_total b)) →
      mapGet st'.g_vocab.id_to_token j = mapGet st.g_vocab.id_to_token j) := by
  obtain ⟨n_mel, n_fft, floats, n', words, rest, _, _, _, _, _, hlen, _, hdecl, hst⟩ :=
    initVocab_success_layout bm be b st st' h
  rw [hn] at hdecl
  have hnn : n = n' := Option.some.inj hdecl
  subst hnn
  obtain ⟨W, hW, hk⟩ := loaded_writes b st n_mel n_fft floats n words hlen
  rw [← hst] at hW
  refine ⟨⟨W, hW, hk⟩, fun h0 => by omega, fun j hj => ?_, fun j hj => ?_⟩
  · rw [hW]; exact mapGet_append_isSome W _ j hj
  · rw [hW]; exact mapGet_append_of_not_mem W _ j (fun hc => hj ((hk j).mp hc))

/-- Witness for C20, amended: on the scenario blob, a monolingual load that follows a
multilingual load from the initial state leaves the entry of ID 51864 as the
multilingual load wrote it. -/
theorem table_frame_witness :
    ∃ s1 s2, initVocab scenarioBlob scenarioBlob true initialGlobals = some (0, s1) ∧
      initVocab scenarioBlob scenarioBlob false s1 = some (0, s2) ∧
      mapGet s2.g_vocab.id_to_token 51864 = mapGet s1.g_vocab.id_to_token 51864 :=
  have h1 := initVocab_scenarioBlob_both true initialGlobals
  have h2 := initVocab_scenarioBlob_both false (loaded true initialGlobals 2 3 scenarioFloats 1
    (insertWords initialGlobals.g_vocab.id_to_token 0 [lit "hi"]))
  ⟨_, _, h1, h2, (table_frame scenarioBlob scenarioBlob false _ _ 1 h2
    declaredVocab_scenarioBlob).2.2.2 51864 (by decide)⟩

/-- C18. The effect of a load on the special-token IDs, relative to the state just
before the call.  A successful `initVocab(true)` sets `g_vocab.n_vocab` to 51865 and,
the six IDs being `int` values below the largest, leaves each of `token_eot`,
`token_sot`, `token_prev`, `token_solm`, `token_not` and `token_beg` exactly 1 higher;
a successful `initVocab(false)` leaves the six IDs and `g_vocab.n_vocab` unchanged.
Hence after a run of successful loads of which `k` are multilingual, each ID is its
initial value plus `k` (the sums fitting an `int`). -/
theorem load_effect_on_ids (bm be : List Byte) (st : Globals) :
    (∀ st', initVocab bm be true st = some (0, st') →
      st'.g_vocab.n_vocab = 51865 ∧
      ((∀ x ∈ specialIds st.g_vocab, -2147483648 ≤ x ∧ x < 2147483647) →
        specialIds st'.g_vocab = (specialIds st.g_vocab).map (fun x => x + 1))) ∧
    (∀ st', initVocab bm be false st = some (0, st') →
      specialIds st'.g_vocab = specialIds st.g_vocab ∧
      st'.g_vocab.n_vocab = st.g_vocab.n_vocab) ∧
    (∀ (flags : List Bool) (st' : Globals), initVocabSeq bm be flags st = some st' →
      (∀ x ∈ specialIds st.g_vocab,
        -2147483648 ≤ x ∧ x + (flags.count true : Int) < 2147483648) →
      specialIds st'.g_vocab =
        (specialIds st.g_vocab).map (fun x => x + (flags.count true : Int))) := by
  refine ⟨fun st' h => ?_, fun st' h => specialIds_after_false bm be st st' h,
    fun flags st' h hids => specialIds_initVocabSeq bm be flags st st' h hids⟩
  obtain ⟨h1, h2⟩ := specialIds_after_true bm be st st' h
  exact ⟨h2, fun hids => by rw [h1, map_toInt32_succ _ hids]⟩

/-- Witness for C18: on the scenario blob from the initial state, the run multilingual,
monolingual, multilingual succeeds and leaves each ID 2 above its initial value. -/
theorem load_effect_on_ids_witness :
    ∃ st', initVocabSeq scenarioBlob scenarioBlob [true, false, true] initialGlobals =
        some st' ∧
      specialIds st'.g_vocab = (specialIds initialGlobals.g_vocab).map
        (fun x => x + (([true, false, true] : List Bool).count true : Int)) := by
  have h1 := initVocab_scenarioBlob_both true initialGlobals
  have h2 := initVocab_scenarioBlob_both false (loaded true initialGlobals 2 3 scenarioFloats 1
    (insertWords initialGlobals.g_vocab.id_to_token 0 [lit "hi"]))
  have h3 := initVocab_scenarioBlob_both true (loaded false (loaded true initialGlobals 2 3
    scenarioFloats 1 (insertWords initialGlobals.g_vocab.id_to_token 0 [lit "hi"])) 2 3
    scenarioFloats 1 (insertWords (loaded true initialGlobals 2 3 scenarioFloats 1
      (insertWords initialGlobals.g_vocab.id_to_token 0 [lit "hi"])).g_vocab.id_to_token 0
      [lit "hi"]))
  have hseq := initVocabSeq_cons scenarioBlob scenarioBlob true [false, true] _ _ h1
  rw [initVocabSeq_cons scenarioBlob scenarioBlob false [true] _ _ h2,
    initVocabSeq_cons scenarioBlob scenarioBlob true [] _ _ h3] at hseq
  exact ⟨_, hseq, (load_effect_on_ids scenarioBlob scenarioBlob initialGlobals).2.2
    [true, false, true] _ hseq (by decide)⟩

/-- C19. Synthesized labels are pairwise distinct: after a successful load, from the
initial state or any other, two different IDs in `[n_vocab, n_vocab_total)` both have
an entry and the two entries differ. -/
theorem synthesized_labels_distinct (bm be : List Byte) (b : Bool) (st st' : Globals)
    (n i j : Int) (h : initVocab bm be b st = some (0, st'))
    (hn : declaredVocab (if b then bm else be) = some n)
    (hi : n ≤ i ∧ i < n_vocab_total b) (hj : n ≤ j ∧ j < n_vocab_total b) (hne : i ≠ j) :
    mapGet st'.g_vocab.id_to_token i = some (synthWord st'.g_vocab i) ∧
    mapGet st'.g_vocab.id_to_token j = some (synthWord st'.g_vocab j) ∧
    mapGet st'.g_vocab.id_to_token i ≠ mapGet st'.g_vocab.id_to_token j := by
  have e1 := initVocab_synthesized bm be b st st' n i h hn hi.1 hi.2
  have e2 := initVocab_synthesized bm be b st st' n j h hn hj.1 hj.2
  obtain ⟨_, _, _, n', _, _, _, _, _, _, hr, _, _, hdecl, _⟩ :=
    initVocab_success_layout bm be b st st' h
  rw [hn] at hdecl
  have hnn : n = n' := Option.some.inj hdecl
  subst hnn
  have hN : n_vocab_total b ≤ 51865 := by cases b <;> decide
  refine ⟨e1, e2, fun hc => hne ?_⟩
  rw [e1, e2] at hc
  exact synthWord_injective st'.g_vocab i j ⟨by omega, by omega⟩ ⟨by omega, by omega⟩
    (Option.some.inj hc)

/-- Witness for C19: on the scenario blob loaded in monolingual mode from the initial
state, the IDs 50256 and 50257. -/
theorem synthesized_labels_distinct_witness :
    ∃ st', initVocab scenarioBlob scenarioBlob false initialGlobals = some (0, st') ∧
      mapGet st'.g_vocab.id_to_token 50256 ≠ mapGet st'.g_vocab.id_to_token 50257 :=
  have h := initVocab_scenarioBlob_both false initialGlobals
  ⟨_, h, (synthesized_labels_distinct scenarioBlob scenarioBlob false initialGlobals _ 1
    50256 50257 h declaredVocab_scenarioBlob (by decide) (by decide) (by decide)).2.2⟩

/-- C14. Exactly one label applies per ID: after a successful load, in either mode,
from a state with the order of IDs of the initial state, for every ID `i` exactly one
of the seven conditions `i > token_beg`, `i = token_eot`, `i = token_sot`,
`i = token_prev`, `i = token_not`, `i = token_beg`, "none of these" holds; the label
of the source is that of the first check that holds, and the six checks made in any
other order assign the same label, which is the entry of every `i` in
`[n_vocab, n_vocab_total)`. -/
theorem one_label_per_id (bm be : List Byte) (b : Bool) (st st' : Globals) (i : Int)
    (h : initVocab bm be b st = some (0, st')) (hbase : BaselineIds st.g_vocab) :
    (labelConditions st'.g_vocab i).count true = 1 ∧
    synthWord st'.g_vocab i = firstMatch (labelChecks st'.g_vocab i) (genericLabel i) ∧
    (∀ l : List (Bool × Str), l.Perm (labelChecks st'.g_vocab i) →
      firstMatch l (genericLabel i) = synthWord st'.g_vocab i) ∧
    (∀ n, declaredVocab (if b then bm else be) = some n → n ≤ i → i < n_vocab_total b →
      ∀ l : List (Bool × Str), l.Perm (labelChecks st'.g_vocab i) →
        mapGet st'.g_vocab.id_to_token i = some (firstMatch l (genericLabel i))) := by
  obtain ⟨hd, hb⟩ := loaded_ids_separate bm be b st st' h hbase
  have hsingle := labelFlags_single st'.g_vocab i hd hb
  have hperm : ∀ l : List (Bool × Str), l.Perm (labelChecks st'.g_vocab i) →
      firstMatch l (genericLabel i) = synthWord st'.g_vocab i := by
    intro l hl
    rw [synthWord_firstMatch]
    apply firstMatch_perm l _ _ hl
    exact Nat.le_trans (filter_zip_length _ _) (singleOutcomes_count _ hsingle)
  refine ⟨singleOutcomes_conditions _ hsingle, synthWord_firstMatch _ i, hperm, ?_⟩
  intro n hn h1 h2 l hl
  rw [hperm l hl]
  exact initVocab_synthesized bm be b st st' n i h hn h1 h2

/-- Witness for C14: on the scenario blob loaded in multilingual mode from the initial
state, at the boundary ID 50364, the timestamp-begin ID then in force. -/
theorem one_label_per_id_witness :
    ∃ st', initVocab scenarioBlob scenarioBlob true initialGlobals = some (0, st') ∧
      (labelConditions st'.g_vocab 50364).count true = 1 ∧
      mapGet st'.g_vocab.id_to_token 50364 =
        some (firstMatch (labelChecks st'.g_vocab 50364).reverse (genericLabel 50364)) :=
  have h := initVocab_scenarioBlob_both true initialGlobals
  have hc := one_label_per_id scenarioBlob scenarioBlob true initialGlobals _ 50364 h
    baselineIds_initial
  ⟨_, h, hc.1, hc.2.2.2 1 declaredVocab_scenarioBlob (by decide) (by decide) _
    (List.reverse_perm _)⟩

end GraspEase
